import Mathlib

/-!
Shallow embedding of the metadata-catalog subsystem implemented in
src/dbms/src/Databases/DatabaseOrdinary.cpp (class DatabaseOrdinary).

The catalog keeps an in-memory mapping from table name to table handle
(std::map<String, StoragePtr>, modelled as an association list) together
with a descriptor directory on disk (modelled as an association list from
path to file content).  Machine-level details that the claims do not touch
(the mutex itself, the raw byte buffers) are not modelled; the sequential
semantics of every operation, its error paths and its filesystem effects
are transcribed from the source.
-/

/-- Table handle (StoragePtr in the source): an opaque reference to a live
table instance, modelled by an identifier. -/
abbrev StoragePtr := Nat

/-- Error codes used by DatabaseOrdinary.cpp (namespace DB::ErrorCodes),
plus generic kinds for filesystem failures raised by the I/O layer
(WriteBufferFromFile / ReadBufferFromFile / Poco::File). -/
inductive ErrKind where
  | TABLE_ALREADY_EXISTS
  | UNKNOWN_TABLE
  | TABLE_METADATA_DOESNT_EXIST
  | CANNOT_CREATE_TABLE_FROM_METADATA
  | INCORRECT_FILE_NAME
  | POCO_FILE_ERROR
  | FILE_NOT_FOUND
  deriving DecidableEq, Repr

/-- A DB::Exception: a message and an error code. -/
structure DBError where
  message : String
  code : ErrKind
  deriving DecidableEq, Repr

/-- The in-memory mapping Tables = std::map<String, StoragePtr>, modelled
as an association list from table name to handle. -/
abbrev Tables := List (String × StoragePtr)

/-- Lookup in the mapping (tables.find / tables.count in the source). -/
def lookupTable : Tables → String → Option StoragePtr
  | [], _ => none
  | (k, v) :: rest, key => if k = key then some v else lookupTable rest key

/-- Erase the entry for a key from the mapping (tables.erase(it)). -/
def eraseTable : Tables → String → Tables
  | [], _ => []
  | (k, v) :: rest, key => if k = key then rest else (k, v) :: eraseTable rest key

/-- Insert a new entry (tables.emplace): returns the new mapping and
whether the insertion took place (emplace(...).second). -/
def emplaceTable (ts : Tables) (key : String) (v : StoragePtr) : Tables × Bool :=
  match lookupTable ts key with
  | some _ => (ts, false)
  | none => (ts ++ [(key, v)], true)

/-- State of one DatabaseOrdinary object: its name, its descriptor
directory path, the guarded mapping, and — as observational
instrumentation for lifecycle claims — the list of handles whose
shutdown() hook has been invoked (only DatabaseOrdinary::shutdown appends
to it). -/
structure DatabaseOrdinary where
  name : String
  path : String
  tables : Tables
  shutdownCalls : List StoragePtr
  deriving DecidableEq, Repr

/-- DatabaseOrdinary::attachTable: under the mutex, emplace the pair into
the mapping; if the name is already present, throw TABLE_ALREADY_EXISTS.
Returns the new state and the raised error, if any. -/
def attachTable (db : DatabaseOrdinary) (table_name : String) (table : StoragePtr) :
    DatabaseOrdinary × Option DBError :=
  match emplaceTable db.tables table_name table with
  | (ts, true) => ({ db with tables := ts }, none)
  | (_, false) =>
      (db, some ⟨"Table " ++ db.name ++ "." ++ table_name ++ " already exists.",
        ErrKind.TABLE_ALREADY_EXISTS⟩)

/-- DatabaseOrdinary::detachTable: under the mutex, find the entry; if
absent, throw an exception whose message says the table does not exist but
whose error code is ErrorCodes::TABLE_ALREADY_EXISTS (transcribed exactly
from the source); if present, erase the entry and return its handle.
No filesystem access occurs. -/
def detachTable (db : DatabaseOrdinary) (table_name : String) :
    DatabaseOrdinary × Option DBError × Option StoragePtr :=
  match lookupTable db.tables table_name with
  | none =>
      (db, some ⟨"Table " ++ db.name ++ "." ++ table_name ++ " doesn\x27t exist.",
        ErrKind.TABLE_ALREADY_EXISTS⟩, none)
  | some res =>
      ({ db with tables := eraseTable db.tables table_name }, none, some res)

/-- DatabaseOrdinary::shutdown: invoke shutdown() on every attached handle
and clear the mapping. -/
def shutdownDatabase (db : DatabaseOrdinary) : DatabaseOrdinary :=
  { db with tables := ([] : Tables), shutdownCalls := db.shutdownCalls ++ db.tables.map Prod.snd }

/-- DatabaseOrdinary::isTableExist (tables.count under the mutex). -/
def isTableExist (db : DatabaseOrdinary) (table_name : String) : Bool :=
  (lookupTable db.tables table_name).isSome

/-- DatabaseOrdinary::tryGetTable: the handle if present, a null pointer
(none) otherwise. -/
def tryGetTable (db : DatabaseOrdinary) (table_name : String) : Option StoragePtr :=
  lookupTable db.tables table_name

section TablesLemmas

theorem lookupTable_eq_none_of_not_mem (ts : Tables) (k : String)
    (h : ∀ v, (k, v) ∉ ts) : lookupTable ts k = none := by
  induction ts with
  | nil => rfl
  | cons hd tl ih =>
      obtain ⟨k0, v0⟩ := hd
      simp only [lookupTable]
      by_cases hk : k0 = k
      · subst hk
        exact absurd (List.mem_cons_self _ _) (h v0)
      · simp only [hk, if_false]
        exact ih fun v hv => h v (List.mem_cons_of_mem _ hv)

theorem eraseTable_append_of_lookup_none (ts : Tables) (k : String) (v : StoragePtr)
    (h : lookupTable ts k = none) : eraseTable (ts ++ [(k, v)]) k = ts := by
  induction ts with
  | nil => simp [eraseTable]
  | cons hd tl ih =>
      obtain ⟨k0, v0⟩ := hd
      simp only [lookupTable] at h
      by_cases hk : k0 = k
      · simp [hk] at h
      · simp only [hk, if_false] at h
        simp [eraseTable, hk, ih h]

theorem lookupTable_append_single (ts : Tables) (k : String) (v : StoragePtr)
    (h : lookupTable ts k = none) : lookupTable (ts ++ [(k, v)]) k = some v := by
  induction ts with
  | nil => simp [lookupTable]
  | cons hd tl ih =>
      obtain ⟨k0, v0⟩ := hd
      simp only [lookupTable] at h ⊢
      by_cases hk : k0 = k
      · simp [hk] at h
      · simp only [hk, if_false] at h ⊢
        exact ih h

theorem lookupTable_eraseTable_ne (ts : Tables) (k q : String) (hne : k ≠ q) :
    lookupTable (eraseTable ts k) q = lookupTable ts q := by
  induction ts with
  | nil => rfl
  | cons hd tl ih =>
      obtain ⟨k0, v0⟩ := hd
      by_cases hk : k0 = k
      · subst hk
        simp [eraseTable, lookupTable, hne]
      · by_cases hq : k0 = q
        · simp [eraseTable, lookupTable, hk, hq, Ne.symm hne]
        · simp [eraseTable, lookupTable, hk, hq, ih]

theorem lookupTable_eraseTable_self_of_nodup (ts : Tables) (k : String)
    (hnd : (ts.map Prod.fst).Nodup) : lookupTable (eraseTable ts k) k = none := by
  induction ts with
  | nil => rfl
  | cons hd tl ih =>
      obtain ⟨k0, v0⟩ := hd
      simp only [List.map_cons, List.nodup_cons] at hnd
      by_cases hk : k0 = k
      · subst hk
        simp only [eraseTable, if_pos rfl]
        apply lookupTable_eq_none_of_not_mem
        intro v hv
        exact hnd.1 (List.mem_map_of_mem Prod.fst hv)
      · simp only [eraseTable, if_neg hk, lookupTable, if_neg hk]
        exact ih hnd.2

theorem lookupTable_append_single_ne (ts : Tables) (k q : String) (v : StoragePtr)
    (hne : k ≠ q) : lookupTable (ts ++ [(k, v)]) q = lookupTable ts q := by
  induction ts with
  | nil => simp [lookupTable, hne]
  | cons hd tl ih =>
      obtain ⟨k0, v0⟩ := hd
      simp only [List.cons_append, lookupTable]
      by_cases hq : k0 = q
      · simp [hq]
      · simp only [hq, if_false]
        exact ih

end TablesLemmas

/-- Claim C10: for every catalog state whose mapping does not contain name
n and every handle h, attachTable n h followed by detachTable n succeeds,
returns exactly the handle h, restores the mapping to its state before the
attach, and neither call invokes any handle's shutdown hook. -/
theorem attach_detach_roundtrip (db : DatabaseOrdinary) (n : String) (h : StoragePtr)
    (habs : lookupTable db.tables n = none) :
    (attachTable db n h).2 = none ∧
    (detachTable (attachTable db n h).1 n).2.1 = none ∧
    (detachTable (attachTable db n h).1 n).2.2 = some h ∧
    (detachTable (attachTable db n h).1 n).1.tables = db.tables ∧
    (detachTable (attachTable db n h).1 n).1.shutdownCalls = db.shutdownCalls ∧
    (attachTable db n h).1.shutdownCalls = db.shutdownCalls := by
  have hatt : attachTable db n h =
      ({ db with tables := db.tables ++ [(n, h)] }, none) := by
    unfold attachTable emplaceTable
    rw [habs]
  have hlook : lookupTable (db.tables ++ [(n, h)]) n = some h :=
    lookupTable_append_single db.tables n h habs
  rw [hatt]
  simp [detachTable, hlook, eraseTable_append_of_lookup_none db.tables n h habs]

/-- Witness for attach_detach_roundtrip at a concrete state. -/
theorem attach_detach_roundtrip_witness :
    (attachTable ⟨"db", "/meta", [("a", 7)], []⟩ "t" 3).2 = none ∧
    (detachTable (attachTable ⟨"db", "/meta", [("a", 7)], []⟩ "t" 3).1 "t").2.2 = some 3 ∧
    (detachTable (attachTable ⟨"db", "/meta", [("a", 7)], []⟩ "t" 3).1 "t").1.tables =
      [("a", 7)] := by
  have h := attach_detach_roundtrip ⟨"db", "/meta", [("a", 7)], []⟩ "t" 3 (by decide)
  exact ⟨h.1, h.2.2.1, h.2.2.2.1⟩

/-- Claim C9 (observed code bug): detachTable on an absent name raises an
error whose message says the table does not exist, yet whose error code is
ErrorCodes::TABLE_ALREADY_EXISTS — not a not-found kind (the file declares
ErrorCodes::UNKNOWN_TABLE but never uses it).  Evaluated at a concrete
empty catalog; the mapping is left unchanged. -/
theorem detachTable_absent_raises_already_exists :
    (detachTable ⟨"db", "/meta", [], []⟩ "t").2.1 =
      some ⟨"Table db.t doesn\x27t exist.", ErrKind.TABLE_ALREADY_EXISTS⟩ ∧
    (detachTable ⟨"db", "/meta", [], []⟩ "t").1 = ⟨"db", "/meta", [], []⟩ ∧
    (detachTable ⟨"db", "/meta", [], []⟩ "t").2.2 = none := by
  refine ⟨?_, rfl, rfl⟩
  decide

/-- The descriptor directory (and its temp files), modelled as an
association list from file path to file content. -/
abbrev FS := List (String × String)

/-- File lookup by path. -/
def lookupFS : FS → String → Option String
  | [], _ => none
  | (p, c) :: rest, q => if p = q then some c else lookupFS rest q

/-- File removal (Poco::File::remove), first matching path. -/
def eraseFS : FS → String → FS
  | [], _ => []
  | (p, c) :: rest, q => if p = q then rest else (p, c) :: eraseFS rest q

/-- File write, replacing any previous content at that path (a fresh path
is appended). -/
def writeFS : FS → String → String → FS
  | [], p, content => [(p, content)]
  | (q, d) :: rest, p, content =>
      if q = p then (p, content) :: rest else (q, d) :: writeFS rest p content

/-- Uppercase hexadecimal digit for a value below 16. -/
def hexDigitChar (n : Nat) : Char :=
  if n < 10 then Char.ofNat (48 + n) else Char.ofNat (55 + n)

/-- Word characters are kept verbatim by the file-name escaping. -/
def isWordChar (c : Char) : Bool :=
  (97 ≤ c.toNat && c.toNat ≤ 122) || (65 ≤ c.toNat && c.toNat ≤ 90) ||
    (48 ≤ c.toNat && c.toNat ≤ 57) || c.toNat = 95

/-- Escape a single character for use in a file name. -/
def escapeChar (c : Char) : List Char :=
  if isWordChar c then [c]
  else ['%', hexDigitChar (c.toNat / 16 % 16), hexDigitChar (c.toNat % 16)]

/-- Modelled from the spec: escapeForFileName (its source,
src/dbms/src/Common/escapeForFileName.cpp, is not part of this repository
snapshot) — the reversible percent-escaping of a table name into a file
name: word characters are kept, every other character becomes a percent
sign followed by two uppercase hex digits (so a dot becomes "%2E"). -/
def escapeForFileName (s : String) : String :=
  ⟨(s.data.map escapeChar).flatten⟩

/-- The structured create/attach statement (ASTCreateQuery), with the
fields DatabaseOrdinary::createTable manipulates; all remaining content of
the definition (column list, engine clause, table name) is carried
opaquely in payload and table. -/
structure ASTCreateQuery where
  attach : Bool
  database : String
  table : String
  as_database : String
  as_table : String
  if_not_exists : Bool
  is_populate : Bool
  select : Option Nat
  payload : Nat
  deriving DecidableEq, Repr

/-- Modelled from the spec: the Formatter collaborator (formatAST,
Definition → canonical text; its source is not part of this repository
snapshot).  The model serializes every field. -/
def formatAST (q : ASTCreateQuery) : String :=
  (if q.attach then "ATTACH TABLE " else "CREATE TABLE ") ++
    (if q.if_not_exists then "IF NOT EXISTS " else "") ++
    q.database ++ "." ++ q.table ++
    " AS " ++ q.as_database ++ "." ++ q.as_table ++
    " PAYLOAD " ++ toString q.payload ++
    (if q.is_populate then " POPULATE" else "") ++
    (match q.select with
     | some s => " SELECT " ++ toString s
     | none => "")

/-- The sanitization block of DatabaseOrdinary::createTable (the block
commented "remove from the query everything not needed for ATTACH"):
set attach, clear database / as_database / as_table / if_not_exists /
is_populate, and null the select clause unless the engine is View or
MaterializedView. -/
def sanitizeForAttach (create : ASTCreateQuery) (engine : String) : ASTCreateQuery :=
  let c1 : ASTCreateQuery :=
    { create with
      attach := true
      database := ""
      as_database := ""
      as_table := ""
      if_not_exists := false
      is_populate := false }
  if engine ≠ "View" && engine ≠ "MaterializedView" then
    { c1 with select := none }
  else
    c1

/-- The TABLE_ALREADY_EXISTS exception raised by attach / create. -/
def alreadyExistsError (dbname table_name : String) : DBError :=
  ⟨"Table " ++ dbname ++ "." ++ table_name ++ " already exists.",
    ErrKind.TABLE_ALREADY_EXISTS⟩

/-- Result of one createTable run: the catalog state, the directory state,
the raised error if any, and — as observational instrumentation — whether
the exclusive create of the .sql.tmp file succeeded (needed to state the
claims about failures after that point). -/
structure CreateOutcome where
  db : DatabaseOrdinary
  fs : FS
  error : Option DBError
  tmpWritten : Bool
  deriving DecidableEq, Repr

/-- DatabaseOrdinary::createTable, transcribed step by step:
1. clone the query and take the fast-path existence check under the mutex;
2. sanitize the clone to attach form and serialize it;
3. write the statement to path/escaped.sql.tmp with O_CREAT | O_EXCL
   (fails if the temp file already exists);
4. re-lock and emplace into the mapping — on failure throw
   TABLE_ALREADY_EXISTS, and the catch-all removes the temp file;
5. rename the temp file onto path/escaped (the source builds
   table_metadata_path without a ".sql" suffix; transcribed as is) — on
   failure the catch-all removes the temp file and rethrows.
The parameter racingInsert models the race the source documents in its
NOTE (a concurrent ATTACH of a table between the metadata write and the
re-lock); renameFails injects a filesystem failure of the final rename. -/
def createTable (db : DatabaseOrdinary) (fs : FS) (table_name : String)
    (table : StoragePtr) (query : ASTCreateQuery) (engine : String)
    (racingInsert : Option (String × StoragePtr)) (renameFails : Bool) : CreateOutcome :=
  if (lookupTable db.tables table_name).isSome then
    ⟨db, fs, some (alreadyExistsError db.name table_name), false⟩
  else
    let create := sanitizeForAttach query engine
    let statement := formatAST create ++ "\n"
    let table_name_escaped := escapeForFileName table_name
    let table_metadata_tmp_path := db.path ++ "/" ++ table_name_escaped ++ ".sql.tmp"
    let table_metadata_path := db.path ++ "/" ++ table_name_escaped
    if (lookupFS fs table_metadata_tmp_path).isSome then
      ⟨db, fs, some ⟨"Cannot open file " ++ table_metadata_tmp_path,
        ErrKind.POCO_FILE_ERROR⟩, false⟩
    else
      let fs1 := writeFS fs table_metadata_tmp_path statement
      let db1 := match racingInsert with
        | none => db
        | some (n, h) => (attachTable db n h).1
      match emplaceTable db1.tables table_name table with
      | (_, false) =>
          ⟨db1, eraseFS fs1 table_metadata_tmp_path,
            some (alreadyExistsError db.name table_name), true⟩
      | (ts2, true) =>
          if renameFails then
            ⟨{ db1 with tables := ts2 }, eraseFS fs1 table_metadata_tmp_path,
              some ⟨"Cannot rename file " ++ table_metadata_tmp_path,
                ErrKind.POCO_FILE_ERROR⟩, true⟩
          else
            ⟨{ db1 with tables := ts2 },
              writeFS (eraseFS fs1 table_metadata_tmp_path) table_metadata_path statement,
              none, true⟩

/-- DatabaseOrdinary::removeTable: detachTable, then Poco::File::remove of
the descriptor; if the removal throws (injected through deleteFails, or
the file being absent), the catch block re-attaches the handle under the
same name and rethrows.  Returns (catalog, directory, returned handle,
raised error). -/
def removeTable (db : DatabaseOrdinary) (fs : FS) (table_name : String)
    (deleteFails : Bool) : DatabaseOrdinary × FS × Option StoragePtr × Option DBError :=
  match detachTable db table_name with
  | (db1, some e, _) => (db1, fs, none, some e)
  | (db1, none, none) => (db1, fs, none, none)
  | (db1, none, some res) =>
      let table_metadata_path := db.path ++ "/" ++ escapeForFileName table_name
      if deleteFails || (lookupFS fs table_metadata_path).isNone then
        match attachTable db1 table_name res with
        | (db2, some e2) => (db2, fs, none, some e2)
        | (db2, none) =>
            (db2, fs, none, some ⟨"Cannot remove file " ++ table_metadata_path,
              ErrKind.POCO_FILE_ERROR⟩)
      else
        (db1, eraseFS fs table_metadata_path, some res, none)

section FSLemmas

theorem writeFS_of_lookup_none (fs : FS) (p c : String)
    (h : lookupFS fs p = none) : writeFS fs p c = fs ++ [(p, c)] := by
  induction fs with
  | nil => rfl
  | cons hd tl ih =>
      obtain ⟨q, d⟩ := hd
      simp only [lookupFS] at h
      by_cases hq : q = p
      · simp [hq] at h
      · simp only [hq, if_false] at h
        simp [writeFS, hq, ih h]

theorem eraseFS_append_of_lookup_none (fs : FS) (p c : String)
    (h : lookupFS fs p = none) : eraseFS (fs ++ [(p, c)]) p = fs := by
  induction fs with
  | nil => simp [eraseFS]
  | cons hd tl ih =>
      obtain ⟨q, d⟩ := hd
      simp only [lookupFS] at h
      by_cases hq : q = p
      · simp [hq] at h
      · simp only [hq, if_false] at h
        simp [eraseFS, hq, ih h]

theorem lookupFS_append_single (fs : FS) (p c : String)
    (h : lookupFS fs p = none) : lookupFS (fs ++ [(p, c)]) p = some c := by
  induction fs with
  | nil => simp [lookupFS]
  | cons hd tl ih =>
      obtain ⟨q, d⟩ := hd
      simp only [lookupFS] at h ⊢
      by_cases hq : q = p
      · simp [hq] at h
      · simp only [hq, if_false] at h ⊢
        exact ih h

theorem lookupFS_append_single_ne (fs : FS) (p q c : String)
    (hne : p ≠ q) : lookupFS (fs ++ [(p, c)]) q = lookupFS fs q := by
  induction fs with
  | nil => simp [lookupFS, hne]
  | cons hd tl ih =>
      obtain ⟨p0, c0⟩ := hd
      simp only [List.cons_append, lookupFS]
      by_cases hp : p0 = q
      · simp [hp]
      · simp only [hp, if_false]
        exact ih

theorem lookupFS_writeFS_self (fs : FS) (p c : String) :
    lookupFS (writeFS fs p c) p = some c := by
  induction fs with
  | nil => simp [writeFS, lookupFS]
  | cons hd tl ih =>
      obtain ⟨q, d⟩ := hd
      by_cases hq : q = p
      · simp [writeFS, hq, lookupFS]
      · simp [writeFS, hq, lookupFS, ih]

theorem lookupFS_writeFS_ne (fs : FS) (p q c : String) (hne : p ≠ q) :
    lookupFS (writeFS fs p c) q = lookupFS fs q := by
  induction fs with
  | nil => simp [writeFS, lookupFS, hne]
  | cons hd tl ih =>
      obtain ⟨p0, c0⟩ := hd
      by_cases hp : p0 = p
      · subst hp
        simp [writeFS, lookupFS, hne]
      · by_cases hq : p0 = q
        · simp [writeFS, lookupFS, hp, hq, Ne.symm hne]
        · simp [writeFS, lookupFS, hp, hq, ih]

theorem lookupFS_eraseFS_ne (fs : FS) (p q : String) (hne : p ≠ q) :
    lookupFS (eraseFS fs p) q = lookupFS fs q := by
  induction fs with
  | nil => rfl
  | cons hd tl ih =>
      obtain ⟨p0, c0⟩ := hd
      by_cases hp : p0 = p
      · subst hp
        simp [eraseFS, lookupFS, hne]
      · by_cases hq : p0 = q
        · simp [eraseFS, lookupFS, hp, hq, Ne.symm hne]
        · simp [eraseFS, lookupFS, hp, hq, ih]

end FSLemmas

theorem not_mem_keys_of_lookupTable_none (ts : Tables) (k : String)
    (h : lookupTable ts k = none) : k ∉ ts.map Prod.fst := by
  induction ts with
  | nil => simp
  | cons hd tl ih =>
      obtain ⟨k0, v0⟩ := hd
      simp only [lookupTable] at h
      by_cases hk : k0 = k
      · simp [hk] at h
      · simp only [hk, if_false] at h
        simp only [List.map_cons, List.mem_cons]
        rintro (rfl | hmem)
        · exact hk rfl
        · exact ih h hmem

theorem eraseTable_sublist (ts : Tables) (k : String) : (eraseTable ts k).Sublist ts := by
  induction ts with
  | nil => simp [eraseTable]
  | cons hd tl ih =>
      obtain ⟨k0, v0⟩ := hd
      by_cases hk : k0 = k
      · simp only [eraseTable, if_pos hk]
        exact List.sublist_cons_self _ _
      · simp only [eraseTable, if_neg hk]
        exact ih.cons₂ _

/-- Claim C6: createTable sanitizes the persisted definition: the
statement written to the descriptor file is the serialization of the
cloned definition with attach set, database / as-database / as-table
cleared, if-not-exists and populate cleared, and the select clause
retained exactly when the engine is View or MaterializedView; the
caller's definition is cloned (values are immutable in the embedding, so
the original is unchanged by construction) and the remaining content
(table name, payload) is preserved. -/
theorem createTable_sanitizes (db : DatabaseOrdinary) (fs : FS) (table_name : String)
    (table : StoragePtr) (query : ASTCreateQuery) (engine : String)
    (hfast : lookupTable db.tables table_name = none)
    (hexcl : lookupFS fs (db.path ++ "/" ++ escapeForFileName table_name ++ ".sql.tmp") = none) :
    (createTable db fs table_name table query engine none false).error = none ∧
    lookupFS (createTable db fs table_name table query engine none false).fs
        (db.path ++ "/" ++ escapeForFileName table_name) =
      some (formatAST (sanitizeForAttach query engine) ++ "\n") ∧
    (sanitizeForAttach query engine).attach = true ∧
    (sanitizeForAttach query engine).database = "" ∧
    (sanitizeForAttach query engine).as_database = "" ∧
    (sanitizeForAttach query engine).as_table = "" ∧
    (sanitizeForAttach query engine).if_not_exists = false ∧
    (sanitizeForAttach query engine).is_populate = false ∧
    (sanitizeForAttach query engine).select =
      (if engine = "View" ∨ engine = "MaterializedView" then query.select else none) ∧
    (sanitizeForAttach query engine).table = query.table ∧
    (sanitizeForAttach query engine).payload = query.payload := by
  have hcreate : createTable db fs table_name table query engine none false =
      ⟨{ db with tables := db.tables ++ [(table_name, table)] },
        writeFS (eraseFS (writeFS fs
            (db.path ++ "/" ++ escapeForFileName table_name ++ ".sql.tmp")
            (formatAST (sanitizeForAttach query engine) ++ "\n"))
          (db.path ++ "/" ++ escapeForFileName table_name ++ ".sql.tmp"))
          (db.path ++ "/" ++ escapeForFileName table_name)
          (formatAST (sanitizeForAttach query engine) ++ "\n"),
        none, true⟩ := by
    simp [createTable, hfast, hexcl, emplaceTable]
  refine ⟨by rw [hcreate], ?_, ?_⟩
  · rw [hcreate]
    exact lookupFS_writeFS_self _ _ _
  · by_cases hv : engine = "View"
    · simp [sanitizeForAttach, hv]
    · by_cases hm : engine = "MaterializedView"
      · simp [sanitizeForAttach, hv, hm]
      · simp [sanitizeForAttach, hv, hm]

/-- Witness for createTable_sanitizes at a concrete input. -/
theorem createTable_sanitizes_witness :
    (createTable ⟨"db", "/meta", [], []⟩ [] "t" 1
        ⟨false, "db", "t", "srcdb", "srct", true, true, some 5, 9⟩ "Log" none false).error
      = none ∧
    (sanitizeForAttach ⟨false, "db", "t", "srcdb", "srct", true, true, some 5, 9⟩ "Log").select
      = none := by
  have h := createTable_sanitizes ⟨"db", "/meta", [], []⟩ [] "t" 1
    ⟨false, "db", "t", "srcdb", "srct", true, true, some 5, 9⟩ "Log" rfl rfl
  refine ⟨h.1, ?_⟩
  rw [h.2.2.2.2.2.2.2.2.1]
  decide

/-- Claim C1 counterexample: with an empty catalog and an empty directory,
createTable of table "t" with an injected failure of the final rename
raises an error after the temp file was successfully written, yet the
in-memory mapping still contains the entry ("t", handle 1) contributed by
this call — the catch block removes only the temp file and does not undo
the emplace, so the claimed atomicity does not hold as stated. -/
theorem createTable_rename_failure_keeps_entry :
    ¬ ((createTable ⟨"db", "/meta", [], []⟩ [] "t" 1
          ⟨false, "db", "t", "", "", false, false, none, 0⟩ "Log" none true).tmpWritten = true →
        (createTable ⟨"db", "/meta", [], []⟩ [] "t" 1
          ⟨false, "db", "t", "", "", false, false, none, 0⟩ "Log" none true).error.isSome = true →
        lookupTable (createTable ⟨"db", "/meta", [], []⟩ [] "t" 1
          ⟨false, "db", "t", "", "", false, false, none, 0⟩ "Log" none true).db.tables "t" = none) := by
  intro hclaim
  have h1 : (createTable ⟨"db", "/meta", [], []⟩ [] "t" 1
      ⟨false, "db", "t", "", "", false, false, none, 0⟩ "Log" none true).tmpWritten = true := by
    decide
  have h2 : (createTable ⟨"db", "/meta", [], []⟩ [] "t" 1
      ⟨false, "db", "t", "", "", false, false, none, 0⟩ "Log" none true).error.isSome = true := by
    decide
  have h3 : lookupTable (createTable ⟨"db", "/meta", [], []⟩ [] "t" 1
      ⟨false, "db", "t", "", "", false, false, none, 0⟩ "Log" none true).db.tables "t" = some 1 := by
    decide
  rw [hclaim h1 h2] at h3
  exact Option.noConfusion h3

theorem append_ne_of_data_ne_nil (s t : String) (h : t.data ≠ []) : s ++ t ≠ s := by
  intro he
  have hd : (s ++ t).data = s.data := by rw [he]
  rw [String.data_append] at hd
  have hlen := congrArg List.length hd
  rw [List.length_append] at hlen
  have : t.data.length = 0 := by omega
  exact h (List.length_eq_zero.mp this)

/-- Claim C1 amended: if createTable raises an error after the temp
descriptor file was successfully written, then afterwards no temp file and
no descriptor file published by this call remain on disk (the descriptor
path's content is exactly what it was before the call); the in-memory
mapping gains no entry from this call when the failure is the
duplicate-name re-check under the second lock, but when the publish rename
itself fails, the entry inserted by this call remains in the mapping (the
catch block removes only the temp file). -/
theorem createTable_failure_cleanup (db : DatabaseOrdinary) (fs : FS) (table_name : String)
    (table : StoragePtr) (query : ASTCreateQuery) (engine : String)
    (racingInsert : Option (String × StoragePtr)) (renameFails : Bool)
    (htmp : (createTable db fs table_name table query engine racingInsert renameFails).tmpWritten
      = true)
    (herr : (createTable db fs table_name table query engine racingInsert renameFails).error.isSome
      = true) :
    lookupFS (createTable db fs table_name table query engine racingInsert renameFails).fs
        (db.path ++ "/" ++ escapeForFileName table_name ++ ".sql.tmp") = none ∧
    lookupFS (createTable db fs table_name table query engine racingInsert renameFails).fs
        (db.path ++ "/" ++ escapeForFileName table_name) =
      lookupFS fs (db.path ++ "/" ++ escapeForFileName table_name) ∧
    (lookupTable
        (createTable db fs table_name table query engine racingInsert renameFails).db.tables
        table_name = some table ∨
      ∃ hR, racingInsert = some (table_name, hR) ∧
        lookupTable
          (createTable db fs table_name table query engine racingInsert renameFails).db.tables
          table_name = some hR) := by
  cases hL : lookupTable db.tables table_name with
  | some v =>
      exfalso
      simp only [createTable, hL] at htmp
      simp at htmp
  | none =>
  cases hT : lookupFS fs (db.path ++ "/" ++ escapeForFileName table_name ++ ".sql.tmp") with
  | some c0 =>
      exfalso
      simp only [createTable, hL, hT] at htmp
      simp at htmp
  | none =>
  have hne : db.path ++ "/" ++ escapeForFileName table_name ++ ".sql.tmp" ≠
      db.path ++ "/" ++ escapeForFileName table_name :=
    append_ne_of_data_ne_nil _ ".sql.tmp" (by decide)
  have hfs_tmp : ∀ s : String,
      lookupFS (eraseFS (writeFS fs (db.path ++ "/" ++ escapeForFileName table_name ++ ".sql.tmp") s)
          (db.path ++ "/" ++ escapeForFileName table_name ++ ".sql.tmp"))
        (db.path ++ "/" ++ escapeForFileName table_name ++ ".sql.tmp") = none := by
    intro s
    rw [writeFS_of_lookup_none fs _ _ hT, eraseFS_append_of_lookup_none fs _ _ hT]
    exact hT
  have hfs_meta : ∀ s : String,
      lookupFS (eraseFS (writeFS fs (db.path ++ "/" ++ escapeForFileName table_name ++ ".sql.tmp") s)
          (db.path ++ "/" ++ escapeForFileName table_name ++ ".sql.tmp"))
        (db.path ++ "/" ++ escapeForFileName table_name) =
      lookupFS fs (db.path ++ "/" ++ escapeForFileName table_name) := by
    intro s
    rw [lookupFS_eraseFS_ne _ _ _ hne, lookupFS_writeFS_ne _ _ _ _ hne]
  cases racingInsert with
  | none =>
      cases renameFails with
      | false =>
          exfalso
          simp only [createTable, hL, hT, emplaceTable] at herr
          simp at herr
      | true =>
          have hcr : createTable db fs table_name table query engine none true =
              ⟨{ db with tables := db.tables ++ [(table_name, table)] },
                eraseFS (writeFS fs
                    (db.path ++ "/" ++ escapeForFileName table_name ++ ".sql.tmp")
                    (formatAST (sanitizeForAttach query engine) ++ "\n"))
                  (db.path ++ "/" ++ escapeForFileName table_name ++ ".sql.tmp"),
                some ⟨"Cannot rename file " ++
                    (db.path ++ "/" ++ escapeForFileName table_name ++ ".sql.tmp"),
                  ErrKind.POCO_FILE_ERROR⟩, true⟩ := by
            simp [createTable, hL, hT, emplaceTable]
          rw [hcr]
          exact ⟨hfs_tmp _, hfs_meta _,
            Or.inl (lookupTable_append_single _ _ _ hL)⟩
  | some nh =>
      obtain ⟨n, hR⟩ := nh
      by_cases hn : n = table_name
      · subst hn
        have hatt : (attachTable db n hR).1 =
            { db with tables := db.tables ++ [(n, hR)] } := by
          simp [attachTable, emplaceTable, hL]
        have hlook1 : lookupTable (db.tables ++ [(n, hR)]) n = some hR :=
          lookupTable_append_single _ _ _ hL
        have hcr : createTable db fs n table query engine (some (n, hR)) renameFails =
            ⟨{ db with tables := db.tables ++ [(n, hR)] },
              eraseFS (writeFS fs
                  (db.path ++ "/" ++ escapeForFileName n ++ ".sql.tmp")
                  (formatAST (sanitizeForAttach query engine) ++ "\n"))
                (db.path ++ "/" ++ escapeForFileName n ++ ".sql.tmp"),
              some (alreadyExistsError db.name n), true⟩ := by
          simp [createTable, hL, hT, emplaceTable, hatt, hlook1]
        rw [hcr]
        exact ⟨hfs_tmp _, hfs_meta _, Or.inr ⟨hR, rfl, hlook1⟩⟩
      · have hatttab : (attachTable db n hR).1.tables = db.tables ∨
            (attachTable db n hR).1.tables = db.tables ++ [(n, hR)] := by
          cases hLn : lookupTable db.tables n with
          | some w => left; simp [attachTable, emplaceTable, hLn]
          | none => right; simp [attachTable, emplaceTable, hLn]
        have hlookdb1 : lookupTable (attachTable db n hR).1.tables table_name = none := by
          rcases hatttab with h1 | h1
          · rw [h1]; exact hL
          · rw [h1, lookupTable_append_single_ne _ _ _ _ hn]; exact hL
        cases renameFails with
        | false =>
            exfalso
            simp only [createTable, hL, hT, emplaceTable, hlookdb1] at herr
            simp at herr
        | true =>
            have hcr : createTable db fs table_name table query engine (some (n, hR)) true =
                ⟨{ (attachTable db n hR).1 with
                    tables := (attachTable db n hR).1.tables ++ [(table_name, table)] },
                  eraseFS (writeFS fs
                      (db.path ++ "/" ++ escapeForFileName table_name ++ ".sql.tmp")
                      (formatAST (sanitizeForAttach query engine) ++ "\n"))
                    (db.path ++ "/" ++ escapeForFileName table_name ++ ".sql.tmp"),
                  some ⟨"Cannot rename file " ++
                      (db.path ++ "/" ++ escapeForFileName table_name ++ ".sql.tmp"),
                    ErrKind.POCO_FILE_ERROR⟩, true⟩ := by
              simp [createTable, hL, hT, emplaceTable, hlookdb1]
            rw [hcr]
            exact ⟨hfs_tmp _, hfs_meta _,
              Or.inl (lookupTable_append_single _ _ _ hlookdb1)⟩

/-- Witness for createTable_failure_cleanup at the rename-failure input. -/
theorem createTable_failure_cleanup_witness :
    lookupFS (createTable ⟨"db", "/meta", [], []⟩ [] "t" 1
        ⟨false, "db", "t", "", "", false, false, none, 0⟩ "Log" none true).fs
      ((⟨"db", "/meta", [], []⟩ : DatabaseOrdinary).path ++ "/" ++
        escapeForFileName "t" ++ ".sql.tmp") = none ∧
    lookupFS (createTable ⟨"db", "/meta", [], []⟩ [] "t" 1
        ⟨false, "db", "t", "", "", false, false, none, 0⟩ "Log" none true).fs
      ((⟨"db", "/meta", [], []⟩ : DatabaseOrdinary).path ++ "/" ++
        escapeForFileName "t") = lookupFS [] ((⟨"db", "/meta", [], []⟩ : DatabaseOrdinary).path ++
        "/" ++ escapeForFileName "t") := by
  have h := createTable_failure_cleanup ⟨"db", "/meta", [], []⟩ [] "t" 1
    ⟨false, "db", "t", "", "", false, false, none, 0⟩ "Log" none true (by decide) (by decide)
  exact ⟨h.1, h.2.1⟩

/-- Claim C5: removeTable rolls back on delete failure: for a name present
in the mapping, when the descriptor deletion fails the original handle is
re-attached under the same name before the error propagates — afterwards
every lookup gives exactly what it gave before the call, the name is
visible with its original handle, the key set stays duplicate-free, the
directory is untouched and no handle is returned. -/
theorem removeTable_rollback (db : DatabaseOrdinary) (fs : FS) (table_name : String)
    (h : StoragePtr)
    (hpres : lookupTable db.tables table_name = some h)
    (hnd : (db.tables.map Prod.fst).Nodup) :
    (removeTable db fs table_name true).2.2.2.isSome = true ∧
    (removeTable db fs table_name true).2.1 = fs ∧
    (∀ k, lookupTable (removeTable db fs table_name true).1.tables k =
      lookupTable db.tables k) ∧
    lookupTable (removeTable db fs table_name true).1.tables table_name = some h ∧
    ((removeTable db fs table_name true).1.tables.map Prod.fst).Nodup ∧
    (removeTable db fs table_name true).2.2.1 = none := by
  have hdet : detachTable db table_name =
      ({ db with tables := eraseTable db.tables table_name }, none, some h) := by
    simp [detachTable, hpres]
  have herased : lookupTable (eraseTable db.tables table_name) table_name = none :=
    lookupTable_eraseTable_self_of_nodup db.tables table_name hnd
  have hatt : attachTable { db with tables := eraseTable db.tables table_name } table_name h =
      ({ db with tables := eraseTable db.tables table_name ++ [(table_name, h)] }, none) := by
    simp [attachTable, emplaceTable, herased]
  have hrm : removeTable db fs table_name true =
      ({ db with tables := eraseTable db.tables table_name ++ [(table_name, h)] }, fs, none,
        some ⟨"Cannot remove file " ++ (db.path ++ "/" ++ escapeForFileName table_name),
          ErrKind.POCO_FILE_ERROR⟩) := by
    simp [removeTable, hdet, hatt]
  rw [hrm]
  have hlookups : ∀ k,
      lookupTable (eraseTable db.tables table_name ++ [(table_name, h)]) k =
        lookupTable db.tables k := by
    intro k
    by_cases hk : k = table_name
    · subst hk
      rw [lookupTable_append_single _ _ _ herased, hpres]
    · rw [lookupTable_append_single_ne _ _ _ _ fun he => hk he.symm,
        lookupTable_eraseTable_ne _ _ _ fun he => hk he.symm]
  refine ⟨rfl, rfl, hlookups, ?_, ?_, rfl⟩
  · rw [hlookups table_name]
    exact hpres
  · rw [List.map_append]
    rw [List.nodup_append]
    refine ⟨?_, by simp, ?_⟩
    · exact hnd.sublist ((eraseTable_sublist db.tables table_name).map Prod.fst)
    · intro a ha hb
      simp only [List.map_cons, List.map_nil, List.mem_singleton] at hb
      subst hb
      exact not_mem_keys_of_lookupTable_none _ _ herased ha

/-- Witness for removeTable_rollback at a concrete catalog. -/
theorem removeTable_rollback_witness :
    (removeTable ⟨"db", "/meta", [("t", 5)], []⟩ [("/meta/t", "x")] "t" true).2.2.2.isSome
      = true ∧
    lookupTable (removeTable ⟨"db", "/meta", [("t", 5)], []⟩ [("/meta/t", "x")] "t" true).1.tables
      "t" = some 5 ∧
    (removeTable ⟨"db", "/meta", [("t", 5)], []⟩ [("/meta/t", "x")] "t" true).2.1 =
      [("/meta/t", "x")] := by
  have h := removeTable_rollback ⟨"db", "/meta", [("t", 5)], []⟩ [("/meta/t", "x")] "t" 5
    (by decide) (by decide)
  exact ⟨h.1, h.2.2.2.1, h.2.1⟩

/-- The snapshot iterator (class DatabaseOrdinaryIterator).  The source
declares a position member (Tables::iterator it) but its constructor
initializes only the copied mapping, never setting the position to
tables.begin(); a default-constructed std::map iterator is singular, so
the position is modelled as Option Nat, none standing for the
indeterminate (singular) state on which every observation is undefined. -/
structure DatabaseOrdinaryIterator where
  tables : Tables
  it : Option Nat
  deriving DecidableEq, Repr

/-- The constructor DatabaseOrdinaryIterator(Tables & tables_): copies the
mapping; the position member is left default-constructed. -/
def iteratorInit (tables_ : Tables) : DatabaseOrdinaryIterator :=
  ⟨tables_, none⟩

/-- isValid(): it != tables.end(); comparing a singular iterator is
undefined, modelled as none. -/
def iterIsValid (i : DatabaseOrdinaryIterator) : Option Bool :=
  i.it.map fun n => decide (n < i.tables.length)

/-- next(): ++it; undefined on the singular position. -/
def iterNext (i : DatabaseOrdinaryIterator) : Option DatabaseOrdinaryIterator :=
  i.it.map fun n => { i with it := some (n + 1) }

/-- name(): it->first; undefined on the singular position. -/
def iterName (i : DatabaseOrdinaryIterator) : Option String :=
  match i.it with
  | none => none
  | some n => (i.tables.get? n).map Prod.fst

/-- The entries an iteration from the current position can yield; nothing
can be reliably yielded from the indeterminate position. -/
def iterYield (i : DatabaseOrdinaryIterator) : List (String × StoragePtr) :=
  match i.it with
  | none => []
  | some n => i.tables.drop n

/-- DatabaseOrdinary::getIterator: construct the iterator from the mapping
under the mutex (the snapshot copy happens in the constructor). -/
def getIterator (db : DatabaseOrdinary) : DatabaseOrdinaryIterator :=
  iteratorInit db.tables

/-- Claim C7 (observed code bug): the iterator returned by getIterator
does not yield the snapshot of the mapping.  At a catalog holding exactly
("a", 1), the constructed iterator has copied the mapping but its position
member was never initialized to tables.begin() (the source constructor
initializes only the tables field), so isValid() and name() operate on an
indeterminate iterator and the iteration yields nothing instead of the
snapshot entry. -/
theorem getIterator_position_uninitialized :
    (getIterator ⟨"db", "/meta", [("a", 1)], []⟩).tables = [("a", 1)] ∧
    (getIterator ⟨"db", "/meta", [("a", 1)], []⟩).it = none ∧
    iterIsValid (getIterator ⟨"db", "/meta", [("a", 1)], []⟩) = none ∧
    iterName (getIterator ⟨"db", "/meta", [("a", 1)], []⟩) = none ∧
    iterYield (getIterator ⟨"db", "/meta", [("a", 1)], []⟩) = [] := by
  exact ⟨rfl, rfl, rfl, rfl, rfl⟩

/-- The static helper endsWith(s, suffix) of DatabaseOrdinary.cpp. -/
def endsWithStr (s suffix : String) : Bool :=
  suffix.data.isSuffixOf s.data

/-- The dotfile test dir_it.name().at(0) == '.' (directory entries are
never empty, so at(0) cannot throw). -/
def startsWithDot (s : String) : Bool :=
  s.data.head? = some '.'

/-- The reserved inner-table marker: the escaped form of the ".inner."
prefix, compared with file_name.compare(0, strlen("%2Einner%2E"), ...). -/
def innerMarker : String := "%2Einner%2E"

/-- Whether an escaped file name carries the inner-table marker prefix. -/
def hasInnerMarker (s : String) : Bool :=
  innerMarker.data.isPrefixOf s.data

/-- Byte-wise lexicographic comparison of character lists, the order
std::sort uses on std::string. -/
def charListLe : List Char → List Char → Bool
  | [], _ => true
  | _ :: _, [] => false
  | a :: s, b :: t =>
      if a.toNat < b.toNat then true
      else if b.toNat < a.toNat then false
      else charListLe s t

/-- Lexicographic order on strings (operator< / operator<= of
std::string, reflexive closure). -/
def strLe (a b : String) : Bool :=
  charListLe a.data b.data

/-- Sorted insertion, the building block of the sorting model. -/
def insertSorted (a : String) : List String → List String
  | [] => [a]
  | b :: t => if strLe a b then a :: b :: t else b :: insertSorted a t

/-- std::sort(file_names.begin(), file_names.end()), modelled as insertion
sort (same sorted result on the name lists at hand). -/
def sortStrings : List String → List String
  | [] => []
  | a :: t => insertSorted a (sortStrings t)

theorem charListLe_total (x y : List Char) :
    charListLe x y = true ∨ charListLe y x = true := by
  induction x generalizing y with
  | nil => left; rfl
  | cons a s ih =>
      cases y with
      | nil => right; rfl
      | cons b t =>
          rcases Nat.lt_trichotomy a.toNat b.toNat with hlt | heq | hgt
          · left; simp [charListLe, hlt]
          · rcases ih t with h | h
            · left; simp [charListLe, heq, h]
            · right; simp [charListLe, heq, h]
          · right; simp [charListLe, hgt]

theorem charListLe_trans (x y z : List Char)
    (hxy : charListLe x y = true) (hyz : charListLe y z = true) :
    charListLe x z = true := by
  induction x generalizing y z with
  | nil => rfl
  | cons a s ih =>
      cases y with
      | nil => simp [charListLe] at hxy
      | cons b t =>
          cases z with
          | nil => simp [charListLe] at hyz
          | cons c u =>
              simp only [charListLe] at hxy hyz ⊢
              by_cases hab : a.toNat < b.toNat
              · by_cases hbc : b.toNat < c.toNat
                · simp [show a.toNat < c.toNat by omega]
                · by_cases hcb : c.toNat < b.toNat
                  · simp [hbc, hcb] at hyz
                  · simp [show a.toNat < c.toNat by omega]
              · by_cases hba : b.toNat < a.toNat
                · simp [hab, hba] at hxy
                · by_cases hbc : b.toNat < c.toNat
                  · simp [show a.toNat < c.toNat by omega]
                  · by_cases hcb : c.toNat < b.toNat
                    · simp [hbc, hcb] at hyz
                    · have hac : ¬ a.toNat < c.toNat := by omega
                      have hca : ¬ c.toNat < a.toNat := by omega
                      simp only [hab, hba, if_false] at hxy
                      simp only [hbc, hcb, if_false] at hyz
                      simp only [hac, hca, if_false]
                      exact ih t u hxy hyz

theorem strLe_total (a b : String) : strLe a b = true ∨ strLe b a = true :=
  charListLe_total a.data b.data

theorem strLe_trans (a b c : String) (h1 : strLe a b = true) (h2 : strLe b c = true) :
    strLe a c = true :=
  charListLe_trans a.data b.data c.data h1 h2

theorem insertSorted_perm (a : String) (l : List String) :
    (insertSorted a l).Perm (a :: l) := by
  induction l with
  | nil => simp [insertSorted]
  | cons b t ih =>
      by_cases hab : strLe a b = true
      · simp [insertSorted, hab]
      · simp only [insertSorted, hab, if_false]
        exact (ih.cons b).trans (List.Perm.swap a b t)

theorem sortStrings_perm (l : List String) : (sortStrings l).Perm l := by
  induction l with
  | nil => simp [sortStrings]
  | cons a t ih =>
      exact (insertSorted_perm a (sortStrings t)).trans (ih.cons a)

theorem insertSorted_pairwise (a : String) (l : List String)
    (hl : l.Pairwise fun x y => strLe x y = true) :
    (insertSorted a l).Pairwise fun x y => strLe x y = true := by
  induction l with
  | nil => simp [insertSorted]
  | cons b t ih =>
      rcases List.pairwise_cons.mp hl with ⟨hbt, ht⟩
      by_cases hab : strLe a b = true
      · simp only [insertSorted, hab, if_true]
        refine List.pairwise_cons.mpr ⟨?_, hl⟩
        intro x hx
        rcases List.mem_cons.mp hx with rfl | hxt
        · exact hab
        · exact strLe_trans a b x hab (hbt x hxt)
      · have hba : strLe b a = true := by
          rcases strLe_total a b with h | h
          · exact absurd h hab
          · exact h
        simp only [insertSorted, hab, if_false]
        refine List.pairwise_cons.mpr ⟨?_, ih ht⟩
        intro x hx
        have hx2 : x ∈ a :: t := (insertSorted_perm a t).mem_iff.mp hx
        rcases List.mem_cons.mp hx2 with rfl | hxt
        · exact hba
        · exact hbt x hxt

theorem sortStrings_pairwise (l : List String) :
    (sortStrings l).Pairwise fun x y => strLe x y = true := by
  induction l with
  | nil => simp [sortStrings]
  | cons a t ih => exact insertSorted_pairwise a (sortStrings t) ih

/-- The descriptor path path + "/" + table_escaped used by loadTable and
the directory scan. -/
def metadataPath (path table_escaped : String) : String :=
  path ++ "/" ++ table_escaped

/-- The directory-scan loop of the DatabaseOrdinary constructor
(Poco::DirectoryIterator loop): entries are examined in the unspecified
order the iterator yields them (the entries parameter).  Dotfiles and
.sql.bak entries are skipped, .sql.tmp entries are deleted from the
directory and excluded, .sql entries are collected in scan order, and any
other entry raises INCORRECT_FILE_NAME. -/
def enumerateDir (path : String) (fs : FS) : List String → Except DBError (List String × FS)
  | [] => Except.ok ([], fs)
  | e :: rest =>
      if startsWithDot e then enumerateDir path fs rest
      else if endsWithStr e ".sql.bak" then enumerateDir path fs rest
      else if endsWithStr e ".sql.tmp" then
        enumerateDir path (eraseFS fs (metadataPath path e)) rest
      else if endsWithStr e ".sql" then
        match enumerateDir path fs rest with
        | Except.ok (ns, fs2) => Except.ok (e :: ns, fs2)
        | Except.error err => Except.error err
      else
        Except.error ⟨"Incorrect file extension: " ++ e ++ " in metadata directory " ++ path,
          ErrKind.INCORRECT_FILE_NAME⟩

/-- Events recorded by an instantiation hook while a table loads. -/
inductive LoadEvent where
  | started (t : String)
  | constructed (t : String)
  | finished (t : String)
  | failed (t : String)
  deriving DecidableEq, Repr

/-- The wrapping performed by loadTable's catch block: the DB::Exception
from executeCreateQuery becomes CANNOT_CREATE_TABLE_FROM_METADATA carrying
the originating descriptor path and the cause. -/
def wrapLoadError (path_to_metadata : String) (e : DBError) : DBError :=
  ⟨"Cannot create table from metadata file " ++ path_to_metadata ++ ", error: " ++ e.message,
    ErrKind.CANNOT_CREATE_TABLE_FROM_METADATA⟩

/-- loadTable (static, DatabaseOrdinary.cpp): read the descriptor at
path/table_escaped (a missing file makes ReadBufferFromFile throw); an
empty file is an expected crash artifact — it is deleted and the table is
silently skipped; otherwise executeCreateQuery parses the content and
instantiates the table, modelled by the construct parameter (the external
parser + Instantiator over the file content, none on success, or the
DB::Exception it raised); an instantiation failure is wrapped with the
descriptor path and the cause.  Returns the directory state, the events
the instantiation hook records, and the raised error, if any. -/
def loadTable (construct : String → Option DBError) (fs : FS)
    (path database table_escaped : String) : FS × List LoadEvent × Option DBError :=
  match lookupFS fs (metadataPath path table_escaped) with
  | none =>
      (fs, [LoadEvent.started table_escaped],
        some ⟨"Cannot open file " ++ metadataPath path table_escaped, ErrKind.FILE_NOT_FOUND⟩)
  | some s =>
      if s = "" then
        (eraseFS fs (metadataPath path table_escaped),
          [LoadEvent.started table_escaped, LoadEvent.finished table_escaped], none)
      else
        match construct s with
        | none =>
            (fs, [LoadEvent.started table_escaped, LoadEvent.constructed table_escaped,
              LoadEvent.finished table_escaped], none)
        | some e =>
            (fs, [LoadEvent.started table_escaped, LoadEvent.failed table_escaped],
              some (wrapLoadError (metadataPath path table_escaped) e))

/-- A sequential run over a list of tables, stopping at the first thrown
exception: the body of the priority-group loop and of one packaged task
(task_function over one bunch). -/
def loadSeq (construct : String → Option DBError) (path database : String) :
    FS → List String → FS × List LoadEvent × Option DBError
  | fs, [] => (fs, [], none)
  | fs, t :: rest =>
      match loadTable construct fs path database t with
      | (fs1, evs, none) =>
          match loadSeq construct path database fs1 rest with
          | (fs2, evs2, err) => (fs2, evs ++ evs2, err)
      | (fs1, evs, some e) => (fs1, evs, some e)

/-- Fuel-driven chunking; with fuel at least the list length and a
positive chunk size it yields the bunches tables.begin() + i*bunch_size
.. min((i+1)*bunch_size, end) of the source. -/
def chunksOfFuel {α : Type} : Nat → Nat → List α → List (List α)
  | 0, _, _ => []
  | _ + 1, _, [] => []
  | fuel + 1, n, x :: xs => (x :: xs).take n :: chunksOfFuel fuel n ((x :: xs).drop n)

/-- The bunch decomposition of the normal group
(TABLES_PARALLEL_LOAD_BUNCH_SIZE-sized slices, in order). -/
def chunksOf {α : Type} (n : Nat) (l : List α) : List (List α) :=
  chunksOfFuel l.length n l

/-- Run every bunch (each as one packaged_task): all bunches execute, each
capturing its own exception instead of propagating it; the per-bunch event
lists and captured errors are collected in bunch order. -/
def runBunches (construct : String → Option DBError) (path database : String) :
    FS → List (List String) → FS × List (List LoadEvent) × List (Option DBError)
  | fs, [] => (fs, [], [])
  | fs, b :: bs =>
      match loadSeq construct path database fs b with
      | (fs1, evs, err) =>
          match runBunches construct path database fs1 bs with
          | (fs2, evss, errs) => (fs2, evs :: evss, err :: errs)

/-- The final loop for (auto and task : tasks) task.get_future().get():
after every task has run, the first captured exception in bunch-index
order is rethrown. -/
def firstSome : List (Option DBError) → Option DBError
  | [] => none
  | some e :: _ => some e
  | none :: rest => firstSome rest

/-- Observable outcome of one bootstrap run. -/
structure BootstrapOutcome where
  fs : FS
  trace : List LoadEvent
  error : Option DBError
  deriving DecidableEq, Repr

/-- The DatabaseOrdinary constructor with thread_pool == nullptr: scan the
directory; sort the collected names; split off the priority group (names
with the inner-table marker, loaded serially and immediately — an
exception here propagates at once); decompose the rest into bunches of
TABLES_PARALLEL_LOAD_BUNCH_SIZE = 100; execute every bunch (exceptions
captured per task); then rethrow the first captured failure in bunch
order. -/
def bootstrapNoPool (construct : String → Option DBError) (name path : String)
    (fs0 : FS) (entries : List String) : BootstrapOutcome :=
  match enumerateDir path fs0 entries with
  | Except.error e => ⟨fs0, [], some e⟩
  | Except.ok (file_names, fs1) =>
      let sorted := sortStrings file_names
      let tables_to_load_first := sorted.filter hasInnerMarker
      let tables := sorted.filter fun s => ! hasInnerMarker s
      match loadSeq construct path name fs1 tables_to_load_first with
      | (fs2, priEvs, some e) => ⟨fs2, priEvs, some e⟩
      | (fs2, priEvs, none) =>
          match runBunches construct path name fs2 (chunksOf 100 tables) with
          | (fs3, evss, errs) => ⟨fs3, priEvs ++ evss.flatten, firstSome errs⟩

/-- An interleaving of several sequences: at each step the scheduler lets
one unit emit its next element; every per-unit order is preserved. -/
inductive Shuffle {α : Type} : List (List α) → List α → Prop
  | empty (xss : List (List α)) (h : ∀ xs ∈ xss, xs = []) : Shuffle xss []
  | take (l1 : List (List α)) (a : α) (m : List α) (l2 : List (List α)) (t : List α) :
      Shuffle (l1 ++ m :: l2) t → Shuffle (l1 ++ (a :: m) :: l2) (a :: t)

/-- The event traces the constructor can produce when a worker pool is
supplied: the scan and the priority group run first in the constructor
thread (a priority failure aborts before any bunch is dispatched); then
the bunches are dispatched and their event sequences interleave
arbitrarily.  Each bunch touches only its own descriptor files (the
bunches partition the sorted normal-group names), so its event list and
captured error are those computed bunch-locally on the post-priority
directory state — runBunches collects exactly these. -/
def PoolTrace (construct : String → Option DBError) (name path : String)
    (fs0 : FS) (entries : List String) (t : List LoadEvent) : Prop :=
  ∃ file_names fs1, enumerateDir path fs0 entries = Except.ok (file_names, fs1) ∧
    ((∃ fs2 priEvs e,
        loadSeq construct path name fs1 ((sortStrings file_names).filter hasInnerMarker) =
          (fs2, priEvs, some e) ∧ t = priEvs) ∨
     (∃ fs2 priEvs,
        loadSeq construct path name fs1 ((sortStrings file_names).filter hasInnerMarker) =
          (fs2, priEvs, none) ∧
        ∃ tn, Shuffle (runBunches construct path name fs2
            (chunksOf 100 ((sortStrings file_names).filter fun s => ! hasInnerMarker s))).2.1 tn ∧
          t = priEvs ++ tn))

theorem lookupFS_eq_none_of_not_mem (fs : FS) (p : String)
    (h : ∀ c, (p, c) ∉ fs) : lookupFS fs p = none := by
  induction fs with
  | nil => rfl
  | cons hd tl ih =>
      obtain ⟨p0, c0⟩ := hd
      simp only [lookupFS]
      by_cases hp : p0 = p
      · subst hp
        exact absurd (List.mem_cons_self _ _) (h c0)
      · simp only [hp, if_false]
        exact ih fun c hc => h c (List.mem_cons_of_mem _ hc)

theorem lookupFS_eraseFS_self_of_nodup (fs : FS) (p : String)
    (hnd : (fs.map Prod.fst).Nodup) : lookupFS (eraseFS fs p) p = none := by
  induction fs with
  | nil => rfl
  | cons hd tl ih =>
      obtain ⟨p0, c0⟩ := hd
      simp only [List.map_cons, List.nodup_cons] at hnd
      by_cases hp : p0 = p
      · subst hp
        simp only [eraseFS, if_pos rfl]
        apply lookupFS_eq_none_of_not_mem
        intro c hc
        exact hnd.1 (List.mem_map_of_mem Prod.fst hc)
      · simp only [eraseFS, if_neg hp, lookupFS, if_neg hp]
        exact ih hnd.2

theorem lookupFS_eraseFS_none_preserved (fs : FS) (p q : String)
    (h : lookupFS fs q = none) : lookupFS (eraseFS fs p) q = none := by
  by_cases hpq : p = q
  · subst hpq
    induction fs with
    | nil => rfl
    | cons hd tl ih =>
        obtain ⟨p0, c0⟩ := hd
        simp only [lookupFS] at h
        by_cases hp : p0 = p
        · simp [hp] at h
        · simp only [hp, if_false] at h
          simp only [eraseFS, if_neg hp, lookupFS, if_neg hp]
          exact ih h
  · rw [lookupFS_eraseFS_ne fs p q hpq]
    exact h

theorem eraseFS_sublist (fs : FS) (p : String) : (eraseFS fs p).Sublist fs := by
  induction fs with
  | nil => simp [eraseFS]
  | cons hd tl ih =>
      obtain ⟨p0, c0⟩ := hd
      by_cases hp : p0 = p
      · simp only [eraseFS, if_pos hp]
        exact List.sublist_cons_self _ _
      · simp only [eraseFS, if_neg hp]
        exact ih.cons₂ _

/-- Claim C8: empty-descriptor tolerance: for a descriptor whose content
is empty, loadTable deletes the file, invokes no instantiation (so no
table is attached to the catalog), raises no error, and touches no other
file. -/
theorem loadTable_empty_descriptor (construct : String → Option DBError) (fs : FS)
    (path database t : String)
    (hempty : lookupFS fs (metadataPath path t) = some "")
    (hnd : (fs.map Prod.fst).Nodup) :
    (loadTable construct fs path database t).2.2 = none ∧
    lookupFS (loadTable construct fs path database t).1 (metadataPath path t) = none ∧
    (∀ n, LoadEvent.constructed n ∉ (loadTable construct fs path database t).2.1) ∧
    (∀ q, q ≠ metadataPath path t →
      lookupFS (loadTable construct fs path database t).1 q = lookupFS fs q) := by
  have hlt : loadTable construct fs path database t =
      (eraseFS fs (metadataPath path t),
        [LoadEvent.started t, LoadEvent.finished t], none) := by
    simp [loadTable, hempty]
  rw [hlt]
  refine ⟨rfl, lookupFS_eraseFS_self_of_nodup fs _ hnd, ?_, ?_⟩
  · intro n
    simp
  · intro q hq
    exact lookupFS_eraseFS_ne _ _ _ fun he => hq he.symm

/-- Witness for loadTable_empty_descriptor: a zero-byte Y.sql. -/
theorem loadTable_empty_descriptor_witness :
    (loadTable (fun _ => none) [("/meta/Y.sql", "")] "/meta" "db" "Y.sql").2.2 = none ∧
    lookupFS (loadTable (fun _ => none) [("/meta/Y.sql", "")] "/meta" "db" "Y.sql").1
      (metadataPath "/meta" "Y.sql") = none := by
  have h := loadTable_empty_descriptor (fun _ => none) [("/meta/Y.sql", "")] "/meta" "db" "Y.sql"
    (by decide) (by decide)
  exact ⟨h.1, h.2.1⟩

/-- A directory entry the scan cannot classify: not a dotfile and carrying
none of the three recognized suffixes. -/
def badEntry (e : String) : Bool :=
  !startsWithDot e && !endsWithStr e ".sql.bak" && !endsWithStr e ".sql.tmp" &&
    !endsWithStr e ".sql"

/-- A directory entry the scan collects: a non-dot .sql file that is
neither a .sql.bak nor a .sql.tmp. -/
def keepSqlEntry (e : String) : Bool :=
  !startsWithDot e && !endsWithStr e ".sql.bak" && !endsWithStr e ".sql.tmp" &&
    endsWithStr e ".sql"

/-- A stale temp file the scan deletes. -/
def isStaleTmp (e : String) : Bool :=
  !startsWithDot e && !endsWithStr e ".sql.bak" && endsWithStr e ".sql.tmp"

theorem enumerateDir_error_of_bad (path : String) (fs : FS) (entries : List String)
    (hbad : ∃ e ∈ entries, badEntry e = true) :
    ∃ msg, enumerateDir path fs entries =
      Except.error ⟨msg, ErrKind.INCORRECT_FILE_NAME⟩ := by
  induction entries generalizing fs with
  | nil => simp at hbad
  | cons e rest ih =>
      rcases hbad with ⟨e0, he0, hbad0⟩
      rcases List.mem_cons.mp he0 with rfl | hmem
      · simp only [badEntry, Bool.and_eq_true, Bool.not_eq_true'] at hbad0
        obtain ⟨⟨⟨h1, h2⟩, h3⟩, h4⟩ := hbad0
        refine ⟨"Incorrect file extension: " ++ e0 ++ " in metadata directory " ++ path, ?_⟩
        simp [enumerateDir, h1, h2, h3, h4]
      · by_cases h1 : startsWithDot e = true
        · simp only [enumerateDir, h1, if_true]
          exact ih fs ⟨e0, hmem, hbad0⟩
        · by_cases h2 : endsWithStr e ".sql.bak" = true
          · simp only [enumerateDir, Bool.not_eq_true] at h1
            simp only [enumerateDir, h1, h2, if_true, Bool.false_eq_true, if_false]
            exact ih fs ⟨e0, hmem, hbad0⟩
          · by_cases h3 : endsWithStr e ".sql.tmp" = true
            · simp only [Bool.not_eq_true] at h1 h2
              simp only [enumerateDir, h1, h2, h3, if_true, Bool.false_eq_true, if_false]
              exact ih _ ⟨e0, hmem, hbad0⟩
            · by_cases h4 : endsWithStr e ".sql" = true
              · simp only [Bool.not_eq_true] at h1 h2 h3
                simp only [enumerateDir, h1, h2, h3, h4, if_true, Bool.false_eq_true, if_false]
                rcases ih fs ⟨e0, hmem, hbad0⟩ with ⟨msg, hmsg⟩
                rw [hmsg]
                exact ⟨msg, rfl⟩
              · refine ⟨"Incorrect file extension: " ++ e ++ " in metadata directory " ++ path, ?_⟩
                simp only [Bool.not_eq_true] at h1 h2 h3 h4
                simp [enumerateDir, h1, h2, h3, h4]

theorem enumerateDir_ok_of_clean (path : String) (fs : FS) (entries : List String)
    (hclean : ∀ e ∈ entries, badEntry e = false)
    (hnd : (fs.map Prod.fst).Nodup) :
    ∃ fs2, enumerateDir path fs entries = Except.ok (entries.filter keepSqlEntry, fs2) ∧
      (∀ e ∈ entries, isStaleTmp e = true → lookupFS fs2 (metadataPath path e) = none) ∧
      (∀ q, (∀ e ∈ entries, isStaleTmp e = true → q ≠ metadataPath path e) →
        lookupFS fs2 q = lookupFS fs q) ∧
      (fs2.map Prod.fst).Nodup := by
  induction entries generalizing fs with
  | nil => exact ⟨fs, rfl, by simp, fun q _ => rfl, hnd⟩
  | cons e rest ih =>
      have hcleanRest : ∀ x ∈ rest, badEntry x = false :=
        fun x hx => hclean x (List.mem_cons_of_mem _ hx)
      by_cases h1 : startsWithDot e = true
      · rcases ih fs hcleanRest hnd with ⟨fs2, heq, htmp, hother, hnd2⟩
        refine ⟨fs2, ?_, ?_, ?_, hnd2⟩
        · simp only [enumerateDir, h1, if_true]
          rw [heq]
          have : keepSqlEntry e = false := by
            simp [keepSqlEntry, h1]
          simp [List.filter_cons, this]
        · intro x hx hsx
          rcases List.mem_cons.mp hx with rfl | hmem
          · simp [isStaleTmp, h1] at hsx
          · exact htmp x hmem hsx
        · intro q hq
          exact hother q fun x hx hsx => hq x (List.mem_cons_of_mem _ hx) hsx
      · by_cases h2 : endsWithStr e ".sql.bak" = true
        · rcases ih fs hcleanRest hnd with ⟨fs2, heq, htmp, hother, hnd2⟩
          refine ⟨fs2, ?_, ?_, ?_, hnd2⟩
          · simp only [Bool.not_eq_true] at h1
            simp only [enumerateDir, h1, Bool.false_eq_true, if_false, h2, if_true]
            rw [heq]
            have : keepSqlEntry e = false := by
              simp [keepSqlEntry, h2]
            simp [List.filter_cons, this]
          · intro x hx hsx
            rcases List.mem_cons.mp hx with rfl | hmem
            · simp [isStaleTmp, h2] at hsx
            · exact htmp x hmem hsx
          · intro q hq
            exact hother q fun x hx hsx => hq x (List.mem_cons_of_mem _ hx) hsx
        · by_cases h3 : endsWithStr e ".sql.tmp" = true
          · have hnd1 : ((eraseFS fs (metadataPath path e)).map Prod.fst).Nodup :=
              hnd.sublist ((eraseFS_sublist fs (metadataPath path e)).map Prod.fst)
            rcases ih (eraseFS fs (metadataPath path e)) hcleanRest hnd1 with
              ⟨fs2, heq, htmp, hother, hnd2⟩
            refine ⟨fs2, ?_, ?_, ?_, hnd2⟩
            · simp only [Bool.not_eq_true] at h1 h2
              simp only [enumerateDir, h1, h2, Bool.false_eq_true, if_false, h3, if_true]
              rw [heq]
              have : keepSqlEntry e = false := by
                simp [keepSqlEntry, h3]
              simp [List.filter_cons, this]
            · intro x hx hsx
              rcases List.mem_cons.mp hx with rfl | hmem
              · by_cases hxin : ∃ x2 ∈ rest, isStaleTmp x2 = true ∧
                    metadataPath path x = metadataPath path x2
                · rcases hxin with ⟨x2, hx2, hsx2, hpx2⟩
                  rw [hpx2]
                  exact htmp x2 hx2 hsx2
                · push_neg at hxin
                  rw [hother (metadataPath path x) fun x2 hx2 hsx2 => hxin x2 hx2 hsx2]
                  exact lookupFS_eraseFS_self_of_nodup fs _ hnd
              · exact htmp x hmem hsx
            · intro q hq
              rw [hother q fun x hx hsx => hq x (List.mem_cons_of_mem _ hx) hsx]
              exact lookupFS_eraseFS_ne fs _ q fun he =>
                (hq e (List.mem_cons_self _ _) (by simp [isStaleTmp, h1, h2, h3])) he.symm
          · have h4 : endsWithStr e ".sql" = true := by
              have := hclean e (List.mem_cons_self _ _)
              simp only [badEntry, Bool.and_eq_true, Bool.not_eq_true'] at this
              by_contra hc
              simp only [Bool.not_eq_true] at hc h1 h2 h3
              simp [h1, h2, h3, hc] at this
            rcases ih fs hcleanRest hnd with ⟨fs2, heq, htmp, hother, hnd2⟩
            refine ⟨fs2, ?_, ?_, ?_, hnd2⟩
            · simp only [Bool.not_eq_true] at h1 h2 h3
              simp only [enumerateDir, h1, h2, h3, Bool.false_eq_true, if_false, h4, if_true]
              rw [heq]
              have : keepSqlEntry e = true := by
                simp [keepSqlEntry, h1, h2, h3, h4]
              simp [List.filter_cons, this]
            · intro x hx hsx
              rcases List.mem_cons.mp hx with rfl | hmem
              · simp only [isStaleTmp, Bool.and_eq_true, Bool.not_eq_true'] at hsx
                exact absurd hsx.2 (by simp [h3])
              · exact htmp x hmem hsx
            · intro q hq
              exact hother q fun x hx hsx => hq x (List.mem_cons_of_mem _ hx) hsx

/-- Claim C2: the bootstrap scan skips every dotfile and every .sql.bak
entry, deletes every stale .sql.tmp file and excludes it from the result,
collects exactly the .sql entries, raises INCORRECT_FILE_NAME when any
entry has none of the three suffixes, and the collected names are then
processed (by the constructor, which applies sortStrings to them) in
lexicographically sorted order.  Directory entries are never empty, so
name().at(0) cannot throw (hypothesis hne). -/
theorem bootstrap_enumeration_spec (path : String) (fs : FS) (entries : List String)
    (hne : ∀ e ∈ entries, e ≠ "")
    (hnd : (fs.map Prod.fst).Nodup) :
    ((∃ e ∈ entries, badEntry e = true) →
      ∃ msg, enumerateDir path fs entries =
        Except.error ⟨msg, ErrKind.INCORRECT_FILE_NAME⟩) ∧
    ((∀ e ∈ entries, badEntry e = false) →
      ∃ fs2, enumerateDir path fs entries = Except.ok (entries.filter keepSqlEntry, fs2) ∧
        (∀ e ∈ entries, isStaleTmp e = true →
          lookupFS fs2 (metadataPath path e) = none ∧ e ∉ entries.filter keepSqlEntry) ∧
        (∀ q, (∀ e ∈ entries, isStaleTmp e = true → q ≠ metadataPath path e) →
          lookupFS fs2 q = lookupFS fs q)) ∧
    (∀ e ∈ entries, startsWithDot e = true → e ∉ entries.filter keepSqlEntry) ∧
    (∀ e ∈ entries, endsWithStr e ".sql.bak" = true → e ∉ entries.filter keepSqlEntry) ∧
    (∀ e ∈ entries, keepSqlEntry e = true → endsWithStr e ".sql" = true ∧
      e ∈ entries.filter keepSqlEntry) ∧
    (sortStrings (entries.filter keepSqlEntry)).Pairwise (fun a b => strLe a b = true) ∧
    (sortStrings (entries.filter keepSqlEntry)).Perm (entries.filter keepSqlEntry) := by
  refine ⟨enumerateDir_error_of_bad path fs entries, ?_, ?_, ?_, ?_,
    sortStrings_pairwise _, sortStrings_perm _⟩
  · intro hclean
    rcases enumerateDir_ok_of_clean path fs entries hclean hnd with
      ⟨fs2, heq, htmp, hother, _⟩
    refine ⟨fs2, heq, ?_, hother⟩
    intro e he hse
    refine ⟨htmp e he hse, ?_⟩
    simp only [isStaleTmp, Bool.and_eq_true] at hse
    simp only [List.mem_filter, keepSqlEntry, Bool.and_eq_true, not_and]
    intro _ hk
    rw [hse.2] at hk
    simp at hk
  · intro e he hd
    simp only [List.mem_filter, keepSqlEntry, Bool.and_eq_true, not_and]
    intro _ hk
    rw [hd] at hk
    simp at hk
  · intro e he hb
    simp only [List.mem_filter, keepSqlEntry, Bool.and_eq_true, not_and]
    intro _ hk
    rw [hb] at hk
    simp at hk
  · intro e he hk
    refine ⟨?_, List.mem_filter.mpr ⟨he, hk⟩⟩
    simp only [keepSqlEntry, Bool.and_eq_true] at hk
    exact hk.2

theorem loadTable_error_form (construct : String → Option DBError) (fs : FS)
    (path database t : String) (fs2 : FS) (evs : List LoadEvent) (e : DBError)
    (h : loadTable construct fs path database t = (fs2, evs, some e)) :
    (∃ s c, construct s = some c ∧ e = wrapLoadError (metadataPath path t) c) ∨
      e = ⟨"Cannot open file " ++ metadataPath path t, ErrKind.FILE_NOT_FOUND⟩ := by
  cases hL : lookupFS fs (metadataPath path t) with
  | none =>
      have hv : loadTable construct fs path database t =
          (fs, [LoadEvent.started t],
            some ⟨"Cannot open file " ++ metadataPath path t, ErrKind.FILE_NOT_FOUND⟩) := by
        simp [loadTable, hL]
      rw [hv] at h
      simp only [Prod.mk.injEq] at h
      obtain ⟨-, -, he⟩ := h
      injection he with he
      subst he
      right
      rfl
  | some s =>
      by_cases hs : s = ""
      · have hv : loadTable construct fs path database t =
            (eraseFS fs (metadataPath path t),
              [LoadEvent.started t, LoadEvent.finished t], none) := by
          simp [loadTable, hL, hs]
        rw [hv] at h
        simp only [Prod.mk.injEq] at h
        exact absurd h.2.2 (by simp)
      · cases hc : construct s with
        | none =>
            have hv : loadTable construct fs path database t =
                (fs, [LoadEvent.started t, LoadEvent.constructed t, LoadEvent.finished t],
                  none) := by
              simp [loadTable, hL, hs, hc]
            rw [hv] at h
            simp only [Prod.mk.injEq] at h
            exact absurd h.2.2 (by simp)
        | some c =>
            have hv : loadTable construct fs path database t =
                (fs, [LoadEvent.started t, LoadEvent.failed t],
                  some (wrapLoadError (metadataPath path t) c)) := by
              simp [loadTable, hL, hs, hc]
            rw [hv] at h
            simp only [Prod.mk.injEq] at h
            obtain ⟨-, -, he⟩ := h
            injection he with he
            subst he
            left
            exact ⟨s, c, hc, rfl⟩

theorem loadSeq_error_form (construct : String → Option DBError) (path database : String) :
    ∀ (ts : List String) (fs fs2 : FS) (evs : List LoadEvent) (e : DBError),
    loadSeq construct path database fs ts = (fs2, evs, some e) →
    ∃ t ∈ ts, ((∃ s c, construct s = some c ∧ e = wrapLoadError (metadataPath path t) c) ∨
      e = ⟨"Cannot open file " ++ metadataPath path t, ErrKind.FILE_NOT_FOUND⟩) := by
  intro ts
  induction ts with
  | nil =>
      intro fs fs2 evs e h
      simp only [loadSeq, Prod.mk.injEq] at h
      exact absurd h.2.2 (by simp)
  | cons t rest ih =>
      intro fs fs2 evs e h
      rcases hlt : loadTable construct fs path database t with ⟨fsa, evsa, erra⟩
      cases erra with
      | some ea =>
          have hv : loadSeq construct path database fs (t :: rest) = (fsa, evsa, some ea) := by
            simp [loadSeq, hlt]
          rw [hv] at h
          simp only [Prod.mk.injEq] at h
          obtain ⟨-, -, he⟩ := h
          injection he with he
          subst he
          exact ⟨t, List.mem_cons_self _ _,
            loadTable_error_form construct fs path database t fsa evsa ea hlt⟩
      | none =>
          rcases hls : loadSeq construct path database fsa rest with ⟨fsb, evsb, errb⟩
          have hv : loadSeq construct path database fs (t :: rest) =
              (fsb, evsa ++ evsb, errb) := by
            simp [loadSeq, hlt, hls]
          rw [hv] at h
          simp only [Prod.mk.injEq] at h
          obtain ⟨-, -, he⟩ := h
          subst he
          rcases ih fsa fsb evsb e hls with ⟨t0, ht0, hform⟩
          exact ⟨t0, List.mem_cons_of_mem _ ht0, hform⟩

theorem runBunches_lengths (construct : String → Option DBError) (path database : String) :
    ∀ (bs : List (List String)) (fs : FS),
    ((runBunches construct path database fs bs).2.1).length = bs.length ∧
    ((runBunches construct path database fs bs).2.2).length = bs.length := by
  intro bs
  induction bs with
  | nil => intro fs; exact ⟨rfl, rfl⟩
  | cons b rest ih =>
      intro fs
      simp only [runBunches]
      rcases hls : loadSeq construct path database fs b with ⟨fs1, evs, err⟩
      rcases hrb : runBunches construct path database fs1 rest with ⟨fs2, evss, errs⟩
      have := ih fs1
      rw [hrb] at this
      simp only [List.length_cons]
      exact ⟨by rw [this.1], by rw [this.2]⟩

theorem runBunches_get_err (construct : String → Option DBError) (path database : String) :
    ∀ (bs : List (List String)) (fs : FS) (i : Nat) (oe : Option DBError),
    ((runBunches construct path database fs bs).2.2).get? i = some oe →
    ∃ b, bs.get? i = some b ∧
      ∃ fsx fsy evs, loadSeq construct path database fsx b = (fsy, evs, oe) := by
  intro bs
  induction bs with
  | nil =>
      intro fs i oe h
      simp [runBunches] at h
  | cons b rest ih =>
      intro fs i oe h
      simp only [runBunches] at h
      rcases hls : loadSeq construct path database fs b with ⟨fs1, evs, err⟩
      rw [hls] at h
      rcases hrb : runBunches construct path database fs1 rest with ⟨fs2, evss, errs⟩
      rw [hrb] at h
      cases i with
      | zero =>
          simp only [List.get?] at h
          injection h with h2
          subst h2
          exact ⟨b, rfl, fs, fs1, evs, hls⟩
      | succ n =>
          simp only [List.get?] at h
          have := ih fs1 n oe (by rw [hrb]; exact h)
          rcases this with ⟨b0, hb0, hrest⟩
          exact ⟨b0, hb0, hrest⟩

theorem firstSome_eq_of_first (l : List (Option DBError)) :
    ∀ (i : Nat) (e : DBError), l.get? i = some (some e) →
    (∀ j, j < i → l.get? j = some none) → firstSome l = some e := by
  induction l with
  | nil =>
      intro i e hi _
      simp at hi
  | cons o rest ih =>
      intro i e hi hbefore
      cases i with
      | zero =>
          simp only [List.get?] at hi
          injection hi with h2
          subst h2
          rfl
      | succ n =>
          have h0 := hbefore 0 (Nat.succ_pos n)
          simp only [List.get?] at h0 hi
          injection h0 with h0
          subst h0
          simp only [firstSome]
          exact ih n e hi fun j hj => hbefore (j + 1) (Nat.succ_lt_succ hj)

/-- The priority group: sorted escaped names carrying the inner-table
marker (the tables_to_load_first partition of the constructor). -/
def priorityTables (file_names : List String) : List String :=
  (sortStrings file_names).filter hasInnerMarker

/-- The normal group: the remaining sorted escaped names (the tables
partition of the constructor). -/
def normalTables (file_names : List String) : List String :=
  (sortStrings file_names).filter fun s => ! hasInnerMarker s

/-- Claim C3: deferred, deterministic failure reporting: given a
successful scan and priority phase, every bunch task runs and its full
event list lands in the bootstrap trace in bunch order (a failure in one
bunch does not prevent any other bunch from running); the constructor's
raised error is the first captured per-bunch failure in bunch-index order
(so the lowest-indexed failing bunch wins, and only after all bunches have
produced their results); and every captured bunch failure is the
CANNOT_CREATE_TABLE_FROM_METADATA wrapping that carries the originating
descriptor path and the underlying cause for a table of that very bunch
(or, for a vanished file, the read error naming that path). -/
theorem bootstrap_deferred_failure (construct : String → Option DBError)
    (name path : String) (fs0 : FS) (entries : List String)
    (file_names : List String) (fs1 fs2 : FS) (priEvs : List LoadEvent)
    (henum : enumerateDir path fs0 entries = Except.ok (file_names, fs1))
    (hpri : loadSeq construct path name fs1 (priorityTables file_names) =
      (fs2, priEvs, none)) :
    (bootstrapNoPool construct name path fs0 entries).trace =
      priEvs ++ ((runBunches construct path name fs2
        (chunksOf 100 (normalTables file_names))).2.1).flatten ∧
    ((runBunches construct path name fs2
        (chunksOf 100 (normalTables file_names))).2.1).length =
      (chunksOf 100 (normalTables file_names)).length ∧
    ((runBunches construct path name fs2
        (chunksOf 100 (normalTables file_names))).2.2).length =
      (chunksOf 100 (normalTables file_names)).length ∧
    (bootstrapNoPool construct name path fs0 entries).error =
      firstSome ((runBunches construct path name fs2
        (chunksOf 100 (normalTables file_names))).2.2) ∧
    (∀ i e, ((runBunches construct path name fs2
          (chunksOf 100 (normalTables file_names))).2.2).get? i = some (some e) →
        (∀ j, j < i → ((runBunches construct path name fs2
          (chunksOf 100 (normalTables file_names))).2.2).get? j = some none) →
        (bootstrapNoPool construct name path fs0 entries).error = some e) ∧
    (∀ i e, ((runBunches construct path name fs2
          (chunksOf 100 (normalTables file_names))).2.2).get? i = some (some e) →
        ∃ b, (chunksOf 100 (normalTables file_names)).get? i = some b ∧
          ∃ t ∈ b,
            ((∃ s c, construct s = some c ∧ e = wrapLoadError (metadataPath path t) c) ∨
              e = ⟨"Cannot open file " ++ metadataPath path t, ErrKind.FILE_NOT_FOUND⟩)) := by
  have hpri2 : loadSeq construct path name fs1
      ((sortStrings file_names).filter hasInnerMarker) = (fs2, priEvs, none) := hpri
  rcases hrb : runBunches construct path name fs2 (chunksOf 100 (normalTables file_names))
    with ⟨fs3, evss, errs⟩
  have hrb2 : runBunches construct path name fs2
      (chunksOf 100 ((sortStrings file_names).filter fun s => ! hasInnerMarker s)) =
      (fs3, evss, errs) := hrb
  have hboot : bootstrapNoPool construct name path fs0 entries =
      ⟨fs3, priEvs ++ evss.flatten, firstSome errs⟩ := by
    simp [bootstrapNoPool, henum, hpri2, hrb2]
  have hlen := runBunches_lengths construct path name
    (chunksOf 100 (normalTables file_names)) fs2
  rw [hrb] at hlen
  refine ⟨by rw [hboot], hlen.1, hlen.2, by rw [hboot], ?_, ?_⟩
  · intro i e hi hb
    rw [hboot]
    exact firstSome_eq_of_first errs i e hi hb
  · intro i e hi
    rw [← hrb] at hi
    rcases runBunches_get_err construct path name
        (chunksOf 100 (normalTables file_names)) fs2 i (some e) hi with
      ⟨b, hbget, fsx, fsy, evs2, hlsx⟩
    rcases loadSeq_error_form construct path name b fsx fsy evs2 e hlsx with ⟨t, hmem, hform⟩
    exact ⟨b, hbget, t, hmem, hform⟩

/-- Witness for bootstrap_deferred_failure: two normal tables, the first
of which fails to construct. -/
theorem bootstrap_deferred_failure_witness :
    (bootstrapNoPool (fun s => if s = "A" then some ⟨"boom", ErrKind.UNKNOWN_TABLE⟩ else none)
        "db" "/meta" [("/meta/a.sql", "A"), ("/meta/b.sql", "B")] ["a.sql", "b.sql"]).error =
      firstSome ((runBunches
        (fun s => if s = "A" then some ⟨"boom", ErrKind.UNKNOWN_TABLE⟩ else none) "/meta" "db"
        [("/meta/a.sql", "A"), ("/meta/b.sql", "B")]
        (chunksOf 100 (normalTables ["a.sql", "b.sql"]))).2.2) := by
  have h := bootstrap_deferred_failure
    (fun s => if s = "A" then some ⟨"boom", ErrKind.UNKNOWN_TABLE⟩ else none)
    "db" "/meta" [("/meta/a.sql", "A"), ("/meta/b.sql", "B")] ["a.sql", "b.sql"]
    ["a.sql", "b.sql"] [("/meta/a.sql", "A"), ("/meta/b.sql", "B")]
    [("/meta/a.sql", "A"), ("/meta/b.sql", "B")] []
    (by rfl) (by decide)
  exact h.2.2.2.1

/-- The table name an event refers to. -/
def eventName : LoadEvent → String
  | LoadEvent.started t => t
  | LoadEvent.constructed t => t
  | LoadEvent.finished t => t
  | LoadEvent.failed t => t

/-- Projection selecting load-start events. -/
def startedName : LoadEvent → Option String
  | LoadEvent.started t => some t
  | _ => none

theorem startedName_eventName (ev : LoadEvent) (s : String)
    (h : startedName ev = some s) : eventName ev = s := by
  cases ev with
  | started t =>
      cases h
      rfl
  | constructed t => simp [startedName] at h
  | finished t => simp [startedName] at h
  | failed t => simp [startedName] at h

theorem loadTable_events_cases (construct : String → Option DBError) (fs : FS)
    (path database t : String) :
    (loadTable construct fs path database t).2.1 = [LoadEvent.started t] ∨
    (loadTable construct fs path database t).2.1 =
      [LoadEvent.started t, LoadEvent.finished t] ∨
    (loadTable construct fs path database t).2.1 =
      [LoadEvent.started t, LoadEvent.constructed t, LoadEvent.finished t] ∨
    (loadTable construct fs path database t).2.1 =
      [LoadEvent.started t, LoadEvent.failed t] := by
  unfold loadTable
  cases lookupFS fs (metadataPath path t) with
  | none => left; rfl
  | some s =>
      by_cases hs : s = ""
      · right; left; simp [hs]
      · simp only [hs, if_false]
        cases construct s with
        | none => right; right; left; simp
        | some c => right; right; right; simp

theorem loadTable_eventName (construct : String → Option DBError) (fs : FS)
    (path database t : String) :
    ∀ ev ∈ (loadTable construct fs path database t).2.1, eventName ev = t := by
  intro ev hev
  rcases loadTable_events_cases construct fs path database t with h | h | h | h <;>
    rw [h] at hev <;> simp at hev
  · subst hev; rfl
  · rcases hev with rfl | rfl <;> rfl
  · rcases hev with rfl | rfl | rfl <;> rfl
  · rcases hev with rfl | rfl <;> rfl

theorem loadTable_startedNames (construct : String → Option DBError) (fs : FS)
    (path database t : String) :
    ((loadTable construct fs path database t).2.1).filterMap startedName = [t] := by
  rcases loadTable_events_cases construct fs path database t with h | h | h | h <;>
    rw [h] <;> rfl

theorem loadSeq_eventName (construct : String → Option DBError) (path database : String) :
    ∀ (ts : List String) (fs : FS) (ev : LoadEvent),
    ev ∈ (loadSeq construct path database fs ts).2.1 → eventName ev ∈ ts := by
  intro ts
  induction ts with
  | nil =>
      intro fs ev hev
      simp [loadSeq] at hev
  | cons t rest ih =>
      intro fs ev hev
      rcases hlt : loadTable construct fs path database t with ⟨fsa, evsa, erra⟩
      have hnames : ∀ e2 ∈ evsa, eventName e2 = t := by
        have := loadTable_eventName construct fs path database t
        rw [hlt] at this
        exact this
      cases erra with
      | some ea =>
          have hv : loadSeq construct path database fs (t :: rest) = (fsa, evsa, some ea) := by
            simp [loadSeq, hlt]
          rw [hv] at hev
          rw [hnames ev hev]
          exact List.mem_cons_self _ _
      | none =>
          rcases hls : loadSeq construct path database fsa rest with ⟨fsb, evsb, errb⟩
          have hv : loadSeq construct path database fs (t :: rest) =
              (fsb, evsa ++ evsb, errb) := by
            simp [loadSeq, hlt, hls]
          rw [hv] at hev
          rcases List.mem_append.mp hev with h1 | h2
          · rw [hnames ev h1]
            exact List.mem_cons_self _ _
          · have := ih fsa ev (by rw [hls]; exact h2)
            exact List.mem_cons_of_mem _ this

theorem loadSeq_startedNames (construct : String → Option DBError) (path database : String) :
    ∀ (ts : List String) (fs : FS),
    (∃ k, ((loadSeq construct path database fs ts).2.1).filterMap startedName = ts.take k) ∧
    ((loadSeq construct path database fs ts).2.2 = none →
      ((loadSeq construct path database fs ts).2.1).filterMap startedName = ts) := by
  intro ts
  induction ts with
  | nil =>
      intro fs
      exact ⟨⟨0, rfl⟩, fun _ => rfl⟩
  | cons t rest ih =>
      intro fs
      rcases hlt : loadTable construct fs path database t with ⟨fsa, evsa, erra⟩
      have hstart : evsa.filterMap startedName = [t] := by
        have := loadTable_startedNames construct fs path database t
        rw [hlt] at this
        exact this
      cases erra with
      | some ea =>
          have hv : loadSeq construct path database fs (t :: rest) = (fsa, evsa, some ea) := by
            simp [loadSeq, hlt]
          rw [hv]
          refine ⟨⟨1, by simp [hstart]⟩, ?_⟩
          intro hnone
          simp at hnone
      | none =>
          rcases hls : loadSeq construct path database fsa rest with ⟨fsb, evsb, errb⟩
          have hv : loadSeq construct path database fs (t :: rest) =
              (fsb, evsa ++ evsb, errb) := by
            simp [loadSeq, hlt, hls]
          rw [hv]
          have ihr := ih fsa
          rw [hls] at ihr
          constructor
          · rcases ihr.1 with ⟨k, hk⟩
            exact ⟨k + 1, by simp [List.filterMap_append, hstart, hk]⟩
          · intro hnone
            simp only at hnone
            have := ihr.2 hnone
            simp [List.filterMap_append, hstart, this]

theorem runBunches_eventName (construct : String → Option DBError) (path database : String) :
    ∀ (bs : List (List String)) (fs : FS) (evs : List LoadEvent) (ev : LoadEvent),
    evs ∈ (runBunches construct path database fs bs).2.1 → ev ∈ evs →
    ∃ b ∈ bs, eventName ev ∈ b := by
  intro bs
  induction bs with
  | nil =>
      intro fs evs ev hevs _
      simp [runBunches] at hevs
  | cons b rest ih =>
      intro fs evs ev hevs hev
      rcases hls : loadSeq construct path database fs b with ⟨fs1, evs1, err1⟩
      rcases hrb : runBunches construct path database fs1 rest with ⟨fs2, evss, errs⟩
      have hv : runBunches construct path database fs (b :: rest) =
          (fs2, evs1 :: evss, err1 :: errs) := by
        simp [runBunches, hls, hrb]
      rw [hv] at hevs
      rcases List.mem_cons.mp hevs with rfl | hmem
      · have := loadSeq_eventName construct path database b fs ev (by rw [hls]; exact hev)
        exact ⟨b, List.mem_cons_self _ _, this⟩
      · rcases ih fs1 evs ev (by rw [hrb]; exact hmem) hev with ⟨b0, hb0, hb0m⟩
        exact ⟨b0, List.mem_cons_of_mem _ hb0, hb0m⟩

theorem chunksOfFuel_mem {α : Type} :
    ∀ (fuel n : Nat) (l b : List α), b ∈ chunksOfFuel fuel n l → ∀ x ∈ b, x ∈ l := by
  intro fuel
  induction fuel with
  | zero =>
      intro n l b hb
      simp [chunksOfFuel] at hb
  | succ f ih =>
      intro n l b hb x hx
      cases l with
      | nil => simp [chunksOfFuel] at hb
      | cons a as =>
          simp only [chunksOfFuel] at hb
          rcases List.mem_cons.mp hb with rfl | hmem
          · exact List.take_subset _ _ hx
          · exact List.drop_subset _ _ (ih n ((a :: as).drop n) b hmem x hx)

theorem chunksOf_mem {α : Type} (n : Nat) (l b : List α) (hb : b ∈ chunksOf n l) :
    ∀ x ∈ b, x ∈ l :=
  chunksOfFuel_mem l.length n l b hb

theorem shuffle_mem {α : Type} {xss : List (List α)} {t : List α} (h : Shuffle xss t) :
    ∀ a ∈ t, ∃ xs ∈ xss, a ∈ xs := by
  induction h with
  | empty xss h =>
      intro a ha
      simp at ha
  | take l1 a m l2 t h ih =>
      intro b hb
      rcases List.mem_cons.mp hb with rfl | hbt
      · exact ⟨b :: m, List.mem_append.mpr (Or.inr (List.mem_cons_self _ _)),
          List.mem_cons_self _ _⟩
      · rcases ih b hbt with ⟨xs, hxs, hbxs⟩
        rcases List.mem_append.mp hxs with h1 | h2
        · exact ⟨xs, List.mem_append.mpr (Or.inl h1), hbxs⟩
        · rcases List.mem_cons.mp h2 with rfl | h3
          · exact ⟨a :: xs, List.mem_append.mpr (Or.inr (List.mem_cons_self _ _)),
              List.mem_cons_of_mem _ hbxs⟩
          · exact ⟨xs, List.mem_append.mpr (Or.inr (List.mem_cons_of_mem _ h3)), hbxs⟩

theorem shuffle_cons_nil {α : Type} {xss : List (List α)} {t : List α} (h : Shuffle xss t) :
    Shuffle ([] :: xss) t := by
  induction h with
  | empty xss h =>
      refine Shuffle.empty _ ?_
      intro xs hxs
      rcases List.mem_cons.mp hxs with rfl | h2
      · rfl
      · exact h xs h2
  | take l1 a m l2 t h ih =>
      have h2 := Shuffle.take ([] :: l1) a m l2 t (by simpa using ih)
      simpa using h2

theorem shuffle_flatten {α : Type} : ∀ xss : List (List α), Shuffle xss xss.flatten := by
  intro xss
  induction xss with
  | nil => exact Shuffle.empty [] (by simp)
  | cons xs rest ih =>
      induction xs with
      | nil => simpa using shuffle_cons_nil ih
      | cons a m ihm =>
          have h2 := Shuffle.take [] a m rest (m ++ rest.flatten) (by simpa using ihm)
          simpa using h2

/-- Claim C4: priority-group ordering: in every event trace the
constructor can produce — with or without a worker pool (the no-pool run
produces one of these traces: last conjunct) — every event of a table
whose escaped file name carries the inner marker %2Einner%2E strictly
precedes every event of a non-marked table (so all marked tables finish
before any normal one starts); the start events of marked tables form a
prefix of the sorted priority list (the whole list once the priority loop
completes), loaded serially in that order; and that list is
lexicographically sorted. -/
theorem bootstrap_priority_order (construct : String → Option DBError)
    (name path : String) (fs0 : FS) (entries : List String)
    (file_names : List String) (fs1 : FS)
    (henum : enumerateDir path fs0 entries = Except.ok (file_names, fs1))
    (t : List LoadEvent)
    (ht : PoolTrace construct name path fs0 entries t) :
    (∀ i j e1 e2, t.get? i = some e1 → hasInnerMarker (eventName e1) = true →
      t.get? j = some e2 → hasInnerMarker (eventName e2) = false → i < j) ∧
    (∃ k, (t.filterMap startedName).filter hasInnerMarker =
      (priorityTables file_names).take k) ∧
    (priorityTables file_names).Pairwise (fun a b => strLe a b = true) ∧
    PoolTrace construct name path fs0 entries
      (bootstrapNoPool construct name path fs0 entries).trace := by
  have hpair : (priorityTables file_names).Pairwise (fun a b => strLe a b = true) :=
    List.Pairwise.sublist (List.filter_sublist _) (sortStrings_pairwise file_names)
  have hpriInner : ∀ x ∈ (sortStrings file_names).filter hasInnerMarker,
      hasInnerMarker x = true := fun x hx => (List.mem_filter.mp hx).2
  have hnp : PoolTrace construct name path fs0 entries
      (bootstrapNoPool construct name path fs0 entries).trace := by
    rcases hload : loadSeq construct path name fs1
        ((sortStrings file_names).filter hasInnerMarker) with ⟨fs2b, priB, errB⟩
    cases errB with
    | some e =>
        have hboot : bootstrapNoPool construct name path fs0 entries =
            ⟨fs2b, priB, some e⟩ := by
          simp [bootstrapNoPool, henum, hload]
        rw [hboot]
        exact ⟨file_names, fs1, henum, Or.inl ⟨fs2b, priB, e, hload, rfl⟩⟩
    | none =>
        rcases hrbp : runBunches construct path name fs2b
            (chunksOf 100 ((sortStrings file_names).filter fun s => ! hasInnerMarker s))
          with ⟨fs3, evss, errs⟩
        have hboot : bootstrapNoPool construct name path fs0 entries =
            ⟨fs3, priB ++ evss.flatten, firstSome errs⟩ := by
          simp [bootstrapNoPool, henum, hload, hrbp]
        rw [hboot]
        refine ⟨file_names, fs1, henum,
          Or.inr ⟨fs2b, priB, hload, evss.flatten, ?_, rfl⟩⟩
        rw [hrbp]
        exact shuffle_flatten evss
  obtain ⟨fns, fs1a, henum2, hcase⟩ := ht
  have hij := henum.symm.trans henum2
  injection hij with hij
  injection hij with ha hb
  subst ha
  subst hb
  rcases hcase with ⟨fs2, priEvs, e, hload, hteq⟩ | ⟨fs2, priEvs, hload, tn, hshuf, rfl⟩
  · subst hteq
    have hallInner : ∀ ev ∈ t, hasInnerMarker (eventName ev) = true := by
      intro ev hev
      have hmem := loadSeq_eventName construct path name
        ((sortStrings file_names).filter hasInnerMarker) fs1 ev (by rw [hload]; exact hev)
      exact hpriInner _ hmem
    refine ⟨?_, ?_, hpair, hnp⟩
    · intro i j e1 e2 hi hinner hj hnon
      exfalso
      have hmem : e2 ∈ t := List.get?_mem hj
      rw [hallInner e2 hmem] at hnon
      exact Bool.noConfusion hnon
    · have hsn := loadSeq_startedNames construct path name
        ((sortStrings file_names).filter hasInnerMarker) fs1
      rw [hload] at hsn
      rcases hsn.1 with ⟨k, hk⟩
      refine ⟨k, ?_⟩
      have hself : (t.filterMap startedName).filter hasInnerMarker =
          t.filterMap startedName := by
        apply List.filter_eq_self.mpr
        intro x hx
        rcases List.mem_filterMap.mp hx with ⟨ev, hev, hsome⟩
        rw [← startedName_eventName ev x hsome]
        exact hallInner ev hev
      rw [hself, hk]
      rfl
  · have hallInner : ∀ ev ∈ priEvs, hasInnerMarker (eventName ev) = true := by
      intro ev hev
      have hmem := loadSeq_eventName construct path name
        ((sortStrings file_names).filter hasInnerMarker) fs1 ev (by rw [hload]; exact hev)
      exact hpriInner _ hmem
    have htnNon : ∀ ev ∈ tn, hasInnerMarker (eventName ev) = false := by
      intro ev hev
      rcases shuffle_mem hshuf ev hev with ⟨evs, hevs, hevm⟩
      rcases runBunches_eventName construct path name
          (chunksOf 100 ((sortStrings file_names).filter fun s => ! hasInnerMarker s))
          fs2 evs ev hevs hevm with ⟨b, hbmem, hbm⟩
      have hmem := chunksOf_mem 100
        ((sortStrings file_names).filter fun s => ! hasInnerMarker s) b hbmem
        (eventName ev) hbm
      have := (List.mem_filter.mp hmem).2
      simpa using this
    refine ⟨?_, ?_, hpair, hnp⟩
    · intro i j e1 e2 hi hinner hj hnon
      have hiLt : i < priEvs.length := by
        by_contra hge
        push_neg at hge
        rw [List.get?_append_right hge] at hi
        have hmem : e1 ∈ tn := List.get?_mem hi
        rw [htnNon e1 hmem] at hinner
        exact Bool.noConfusion hinner
      have hjGe : priEvs.length ≤ j := by
        by_contra hlt
        push_neg at hlt
        rw [List.get?_append hlt] at hj
        have hmem : e2 ∈ priEvs := List.get?_mem hj
        rw [hallInner e2 hmem] at hnon
        exact Bool.noConfusion hnon
      omega
    · have hsn := loadSeq_startedNames construct path name
        ((sortStrings file_names).filter hasInnerMarker) fs1
      rw [hload] at hsn
      have hfull := hsn.2 rfl
      have hself : ((sortStrings file_names).filter hasInnerMarker).filter hasInnerMarker =
          (sortStrings file_names).filter hasInnerMarker :=
        List.filter_eq_self.mpr hpriInner
      have htnEmpty : (tn.filterMap startedName).filter hasInnerMarker = [] := by
        apply List.filter_eq_nil.mpr
        intro x hx
        rcases List.mem_filterMap.mp hx with ⟨ev, hev, hsome⟩
        rw [← startedName_eventName ev x hsome]
        rw [htnNon ev hev]
        exact Bool.noConfusion
      refine ⟨((sortStrings file_names).filter hasInnerMarker).length, ?_⟩
      rw [List.filterMap_append, List.filter_append, hfull, hself, htnEmpty,
        List.append_nil]
      exact (List.take_length _).symm

/-- Witness for bootstrap_priority_order at a concrete two-table catalog
(one inner-marked table, one normal table). -/
theorem bootstrap_priority_order_witness :
    ∃ k, (((bootstrapNoPool (fun _ => none) "db" "/meta"
          [("/meta/%2Einner%2Ea.sql", "A"), ("/meta/b.sql", "B")]
          ["%2Einner%2Ea.sql", "b.sql"]).trace.filterMap startedName).filter
        hasInnerMarker) =
      (priorityTables ["%2Einner%2Ea.sql", "b.sql"]).take k := by
  have ht : PoolTrace (fun _ => none) "db" "/meta"
      [("/meta/%2Einner%2Ea.sql", "A"), ("/meta/b.sql", "B")] ["%2Einner%2Ea.sql", "b.sql"]
      (bootstrapNoPool (fun _ => none) "db" "/meta"
        [("/meta/%2Einner%2Ea.sql", "A"), ("/meta/b.sql", "B")]
        ["%2Einner%2Ea.sql", "b.sql"]).trace := by
    refine ⟨["%2Einner%2Ea.sql", "b.sql"],
      [("/meta/%2Einner%2Ea.sql", "A"), ("/meta/b.sql", "B")], by rfl, Or.inr ?_⟩
    refine ⟨[("/meta/%2Einner%2Ea.sql", "A"), ("/meta/b.sql", "B")],
      [LoadEvent.started "%2Einner%2Ea.sql", LoadEvent.constructed "%2Einner%2Ea.sql",
        LoadEvent.finished "%2Einner%2Ea.sql"], by decide,
      [LoadEvent.started "b.sql", LoadEvent.constructed "b.sql", LoadEvent.finished "b.sql"],
      ?_, by decide⟩
    have hrb : runBunches (fun _ => none) "/meta" "db"
        [("/meta/%2Einner%2Ea.sql", "A"), ("/meta/b.sql", "B")]
        (chunksOf 100 ((sortStrings ["%2Einner%2Ea.sql", "b.sql"]).filter
          fun s => ! hasInnerMarker s)) =
        ([("/meta/%2Einner%2Ea.sql", "A"), ("/meta/b.sql", "B")],
          [[LoadEvent.started "b.sql", LoadEvent.constructed "b.sql",
            LoadEvent.finished "b.sql"]], [none]) := by decide
    rw [hrb]
    simpa using shuffle_flatten
      [[LoadEvent.started "b.sql", LoadEvent.constructed "b.sql", LoadEvent.finished "b.sql"]]
  exact (bootstrap_priority_order (fun _ => none) "db" "/meta"
    [("/meta/%2Einner%2Ea.sql", "A"), ("/meta/b.sql", "B")] ["%2Einner%2Ea.sql", "b.sql"]
    ["%2Einner%2Ea.sql", "b.sql"] [("/meta/%2Einner%2Ea.sql", "A"), ("/meta/b.sql", "B")]
    (by rfl) _ ht).2.1

/-- Witness for bootstrap_enumeration_spec at a concrete directory holding
a dotfile, a backup, a stale temp file and one descriptor. -/
theorem bootstrap_enumeration_spec_witness :
    ∃ fs2, enumerateDir "/meta" [("/meta/b.sql.tmp", "x"), ("/meta/a.sql", "c")]
        [".svn", "x.sql.bak", "b.sql.tmp", "a.sql"] =
      Except.ok ([".svn", "x.sql.bak", "b.sql.tmp", "a.sql"].filter keepSqlEntry, fs2) ∧
      (∀ e ∈ [".svn", "x.sql.bak", "b.sql.tmp", "a.sql"], isStaleTmp e = true →
        lookupFS fs2 (metadataPath "/meta" e) = none ∧
        e ∉ [".svn", "x.sql.bak", "b.sql.tmp", "a.sql"].filter keepSqlEntry) ∧
      (∀ q, (∀ e ∈ [".svn", "x.sql.bak", "b.sql.tmp", "a.sql"], isStaleTmp e = true →
          q ≠ metadataPath "/meta" e) →
        lookupFS fs2 q = lookupFS [("/meta/b.sql.tmp", "x"), ("/meta/a.sql", "c")] q) :=
  (bootstrap_enumeration_spec "/meta" [("/meta/b.sql.tmp", "x"), ("/meta/a.sql", "c")]
    [".svn", "x.sql.bak", "b.sql.tmp", "a.sql"] (by decide) (by decide)).2.1 (by decide)
